import Mathlib

/-!
# Seam carving (seamCarving.go): shallow embedding and verified properties

The embedding follows `src/seamCarving.go` function by function.

* An image is an `image.Image` of any type whose rectangle starts at the origin, as the
  decoders return it: a width, a height, the colour `At` returns at every position, and
  whether the type of the image has a `Set` method (implements `draw.Image`).
* A colour is what the program observes of a `color.Color`: the four 16 bit values of
  its method `RGBA()`.  `(*image.RGBA).Set` stores the `color.RGBAModel` conversion of a
  colour and does nothing outside the rectangle, as in the Go standard library.
* `[][]float64` grids are lists of rows of integers.  Every number the program computes
  from an image is an integer far below 2^53, so float64 arithmetic on it is exact;
  `math.Min` is `min` and `math.Abs` is the absolute value.
* Indexing a slice out of range panics in Go.  The embedding returns `none` there, so
  the functions that index slices return an `Option`.
* `for` loops are folds over the list of the values the loop variable takes.
-/

namespace SeamCarving

/-! ## Data model -/

/-- A colour as the program observes it: the four values that the method `RGBA()` of
the `color.Color` returns (alpha-premultiplied, 16 bit each).  The program reads a
colour through `RGBA()` only, in `colorSlice` and inside `(*image.RGBA).Set`.  For a
`color.RGBA` with the stored bytes `(r, g, b, a)` these are `257 * r`, `257 * g`,
`257 * b`, `257 * a`. -/
structure Color where
  r : Nat
  g : Nat
  b : Nat
  a : Nat
deriving DecidableEq, Repr

/-- The zero colour `color.RGBA{}`. -/
def Color.zero : Color := ⟨0, 0, 0, 0⟩

/-- One channel of `color.RGBAModel.Convert`: the stored byte is `uint8(v >> 8)`, and the
resulting `color.RGBA` reads `b | b << 8 = 257 * b` through `RGBA()`. -/
def convertChannel (v : Nat) : Nat := ((v / 256) % 256) * 257

/-- The conversion `color.RGBAModel.Convert(c)`.  It maps a `color.RGBA` to itself and
loses the low byte of every channel of any other colour. -/
def rgbaModelConvert (c : Color) : Color :=
  ⟨convertChannel c.r, convertChannel c.g, convertChannel c.b, convertChannel c.a⟩

/-- An `image.Image` with rectangle `(0,0)-(w,h)`.  `pix` holds the rows: `pix[y][x]` is
the colour `At(x, y)`; `outside` is the colour `At` returns outside the rectangle; `draw`
tells whether the dynamic type of the image has a `Set` method, that is whether it
implements `draw.Image` (`*image.RGBA`, `*image.NRGBA`, `*image.Gray` and the like do,
the `*image.YCbCr` of a colour JPEG does not). -/
structure Image where
  w : Nat
  h : Nat
  pix : List (List Color)
  draw : Bool
  outside : Color
deriving DecidableEq, Repr

/-- Well-formed image: `h` rows of `w` pixels each. -/
def Image.WF (img : Image) : Prop :=
  img.pix.length = img.h ∧ ∀ row ∈ img.pix, row.length = img.w

/-- The call `image.NewRGBA(image.Rect(0, 0, w, h))`: an `*image.RGBA`, all pixels
zero. -/
def NewRGBA (w h : Nat) : Image :=
  ⟨w, h, List.replicate h (List.replicate w Color.zero), true, Color.zero⟩

/-- The method `img.At(x, y)`. -/
def Image.At (img : Image) (x y : Nat) : Color :=
  if x < img.w ∧ y < img.h then (img.pix.getD y []).getD x Color.zero else img.outside

/-- The method `(*image.RGBA).Set(x, y, c)`: it stores `color.RGBAModel.Convert(c)` and has
no effect outside the rectangle.  The program calls `Set` on images made by `NewRGBA`
only. -/
def Image.Set (img : Image) (x y : Nat) (c : Color) : Image :=
  if x < img.w ∧ y < img.h then
    { img with pix := img.pix.set y ((img.pix.getD y []).set x (rgbaModelConvert c)) }
  else img

/-- A `[][]float64` value. -/
abbrev Grid := List (List Int)

/-- The nested `make` calls: `ysize` rows of `xsize` zeros. -/
def makeGrid (ysize xsize : Nat) : Grid :=
  List.replicate ysize (List.replicate xsize 0)

/-- Read `g[r][c]`; `none` models the index-out-of-range panic. -/
def Grid.get2 (g : Grid) (r c : Nat) : Option Int :=
  match g[r]? with
  | none => none
  | some row => row[c]?

/-- Write `g[r][c] = v`; `none` models the index-out-of-range panic. -/
def Grid.set2 (g : Grid) (r c : Nat) (v : Int) : Option Grid :=
  match g[r]? with
  | none => none
  | some row => if c < row.length then some (g.set r (row.set c v)) else none

/-- Dimension predicate of a grid: `H` rows of `W` entries each. -/
def Grid.Dim (g : Grid) (H W : Nat) : Prop :=
  g.length = H ∧ ∀ row ∈ g, row.length = W

/-- Total reading of a grid entry, used to state values; zero outside the grid. -/
def Grid.val (g : Grid) (r c : Nat) : Int := (g.getD r []).getD c 0

/-- Write `seam[i] = v` on a `[]int`; `none` models the panic. -/
def setIdx (seam : List Nat) (i v : Nat) : Option (List Nat) :=
  if i < seam.length then some (seam.set i v) else none

/-! ## Loops -/

/-- The loop `for i := lo; i < hi; i++ { body }` threading a state, where the body may
panic. -/
def forLoop {σ : Type} (lo hi : Nat) (body : σ → Nat → Option σ) (s : σ) : Option σ :=
  (List.range' lo (hi - lo)).foldlM body s

/-- The loop `for i := hi; i > lo; i-- { body }` threading a state, where the body may
panic. -/
def forDown {σ : Type} (hi lo : Nat) (body : σ → Nat → Option σ) (s : σ) : Option σ :=
  (List.range' (lo + 1) (hi - lo)).reverse.foldlM body s

/-- The loop `for i := lo; i < hi; i++ { body }` for a body that cannot panic. -/
def forPure {σ : Type} (lo hi : Nat) (body : σ → Nat → σ) (s : σ) : σ :=
  (List.range' lo (hi - lo)).foldl body s

/-! ## Energy -/

/-- Function `colorSlice`: the four values of `color.RGBA()` as `float64`. -/
def colorSlice (color : Color) : List Int :=
  [(color.r : Int), (color.g : Int), (color.b : Int), (color.a : Int)]

/-- The call `math.Abs`. -/
def absF (x : Int) : Int := if x < 0 then -x else x

/-- Function `sobelY`. -/
def sobelY (s1 s2 s3 s4 s5 s6 : Color) : Option Int :=
  let topleft := colorSlice s1
  let topmiddle := colorSlice s2
  let topright := colorSlice s3
  let bottomleft := colorSlice s4
  let bottommiddle := colorSlice s5
  let bottomright := colorSlice s6
  forLoop 0 4 (fun output i => do
    let tl ← topleft[i]?
    let tm ← topmiddle[i]?
    let tr ← topright[i]?
    let bl ← bottomleft[i]?
    let bm ← bottommiddle[i]?
    let br ← bottomright[i]?
    pure (output + absF (tl + 2 * tm + tr - bl - 2 * bm - br))) 0

/-- Function `sobelX`. -/
def sobelX (s1 s2 s3 s4 s5 s6 : Color) : Option Int :=
  let lefttop := colorSlice s1
  let leftmiddle := colorSlice s2
  let leftbottom := colorSlice s3
  let righttop := colorSlice s4
  let rightmiddle := colorSlice s5
  let rightbottom := colorSlice s6
  forLoop 0 4 (fun output i => do
    let lt ← lefttop[i]?
    let lm ← leftmiddle[i]?
    let lb ← leftbottom[i]?
    let rt ← righttop[i]?
    let rm ← rightmiddle[i]?
    let rb ← rightbottom[i]?
    pure (output + absF (lt + 2 * lm + lb - rt - 2 * rm - rb))) 0

/-- Function `energy`. -/
def energy (img : Image) : Option Grid :=
  let imgXsize := img.w
  let imgYsize := img.h
  let energy := makeGrid imgYsize imgXsize
  forLoop 0 imgXsize (fun energy c =>
    forLoop 0 imgYsize (fun energy r =>
      if c = 0 ∨ r = 0 ∨ c = imgXsize - 1 ∨ r = imgYsize - 1 then
        energy.set2 r c 0
      else do
        let dx ← sobelX
          (img.At (c - 1) (r - 1))
          (img.At (c - 1) r)
          (img.At (c - 1) (r + 1))
          (img.At (c + 1) (r - 1))
          (img.At (c + 1) r)
          (img.At (c + 1) (r + 1))
        let dy ← sobelY
          (img.At (c - 1) (r - 1))
          (img.At c (r - 1))
          (img.At (c + 1) (r - 1))
          (img.At (c - 1) (r + 1))
          (img.At c (r + 1))
          (img.At (c + 1) (r + 1))
        energy.set2 r c (dx + dy)) energy) energy

/-! ## Cumulative minimal energy -/

/-- The assignment
`cumMinEnergy[r][c] = energy[r][c] + math.Min(cumMinEnergy[r-1][c1], cumMinEnergy[r-1][c2])`
of the two border statements of `getCumMinEnergy` (lines 140 and 142). -/
def assignMin2 (energy cumMinEnergy : Grid) (r c c1 c2 : Nat) : Option Grid := do
  let e ← energy.get2 r c
  let a ← cumMinEnergy.get2 (r - 1) c1
  let b ← cumMinEnergy.get2 (r - 1) c2
  cumMinEnergy.set2 r c (e + min a b)

/-- The assignment of the inner loop of `getCumMinEnergy` (line 145):
`cumMinEnergy[r][c] = energy[r][c] + math.Min(cumMinEnergy[r-1][c-1],
math.Min(cumMinEnergy[r-1][c], cumMinEnergy[r-1][c+1]))`. -/
def assignMin3 (energy cumMinEnergy : Grid) (r c : Nat) : Option Grid := do
  let e ← energy.get2 r c
  let a ← cumMinEnergy.get2 (r - 1) (c - 1)
  let b ← cumMinEnergy.get2 (r - 1) c
  let d ← cumMinEnergy.get2 (r - 1) (c + 1)
  cumMinEnergy.set2 r c (e + min a (min b d))

/-- Function `getCumMinEnergy`.  The indices `xsize-2` and `xsize-3` are natural
number subtractions; when `xsize < 3` the first statement of the row loop already
panics (it reads column 2 of a row of `xsize` entries), so the truncation is never
observed. -/
def getCumMinEnergy (energy : Grid) : Option Grid := do
  let row0 ← energy[0]?
  let xsize := row0.length
  let ysize := energy.length
  let cumMinEnergy := makeGrid ysize xsize
  forLoop 1 ysize (fun cumMinEnergy r => do
    -- left border
    let cumMinEnergy ← assignMin2 energy cumMinEnergy r 1 1 2
    -- right border
    let cumMinEnergy ← assignMin2 energy cumMinEnergy r (xsize - 2) (xsize - 2) (xsize - 3)
    -- in between
    forLoop 2 (xsize - 2) (fun cumMinEnergy c => assignMin3 energy cumMinEnergy r c)
      cumMinEnergy) cumMinEnergy

/-! ## Seam location -/

/-- The comparison `g[r1][c1] < g[r2][c2]`. -/
def Grid.lt (g : Grid) (r1 c1 r2 c2 : Nat) : Option Bool := do
  let a ← g.get2 r1 c1
  let b ← g.get2 r2 c2
  pure (decide (a < b))

/-- The short-circuit conjunction `p && q`: `q` is evaluated only when `p` holds. -/
def andAlso (p q : Option Bool) : Option Bool :=
  match p with
  | none => none
  | some true => q
  | some false => some false

/-- One iteration of the upward traversal of `getSeamV` at row `i`; the state is the
pair of the variables `minIndex` and `seam`. -/
def seamStep (cumMinEnergy : Grid) (xsize : Nat) (st : Nat × List Nat) (i : Nat) :
    Option (Nat × List Nat) :=
  let minIndex := st.1
  let seam := st.2
  if minIndex = 1 then do
    -- left border
    if (← cumMinEnergy.lt i minIndex i (minIndex + 1)) then
      -- go up
      let seam ← setIdx seam i minIndex
      pure (minIndex, seam)
    else
      -- go right
      let minIndex := minIndex + 1
      let seam ← setIdx seam i minIndex
      pure (minIndex, seam)
  else if minIndex = xsize - 1 then do
    -- right border
    if (← cumMinEnergy.lt i minIndex i (minIndex - 1)) then
      -- go up
      let seam ← setIdx seam i minIndex
      pure (minIndex, seam)
    else
      -- go left
      let minIndex := minIndex - 1
      let seam ← setIdx seam i minIndex
      pure (minIndex, seam)
  else do
    -- inbetween borders
    if (← andAlso (cumMinEnergy.lt i (minIndex - 1) i minIndex)
          (cumMinEnergy.lt i (minIndex - 1) i (minIndex + 1))) then
      -- go left
      let minIndex := minIndex - 1
      let seam ← setIdx seam i minIndex
      pure (minIndex, seam)
    else if (← andAlso (cumMinEnergy.lt i (minIndex + 1) i minIndex)
          (cumMinEnergy.lt i (minIndex + 1) i (minIndex - 1))) then
      -- go right
      let minIndex := minIndex + 1
      let seam ← setIdx seam i minIndex
      pure (minIndex, seam)
    else
      -- go center
      let seam ← setIdx seam i minIndex
      pure (minIndex, seam)

/-- Function `getSeamV`.  The variable `minIndex` is at least 1 throughout, so the
natural number subtraction `minIndex - 1` is exact. -/
def getSeamV (cumMinEnergy : Grid) : Option (List Nat) := do
  let ysize := cumMinEnergy.length
  let row0 ← cumMinEnergy[0]?
  let xsize := row0.length
  -- Get End of smallest Seam
  let minIndex ← forLoop 1 (row0.length - 3) (fun minIndex i => do
    let a ← cumMinEnergy.get2 (ysize - 1) i
    let b ← cumMinEnergy.get2 (ysize - 1) minIndex
    pure (if a ≤ b then i else minIndex)) 1
  -- Create Seam Array to store smallest seam
  let seam := List.replicate ysize 0
  let seam ← setIdx seam (ysize - 1) minIndex
  -- Traverse upwards from End and note all x-indexes of seam
  let st ← forDown (ysize - 2) 0 (seamStep cumMinEnergy xsize) (minIndex, seam)
  pure st.2

/-! ## Seam removal and transposition -/

/-- The pixel copy loop of `removeSeamV` (lines 113 to 122). -/
def copyPixels (img : Image) (seam : List Nat) (xsize ysize : Nat) (newimg : Image) :
    Option Image :=
  forLoop 0 ysize (fun newimg r => do
    let st ← forLoop 0 (xsize + 1) (fun (st : Image × Nat) oldx => do
      let newimg := st.1.Set st.2 r (img.At oldx r)
      let s ← seam[r]?
      pure (newimg, if oldx ≠ s then st.2 + 1 else st.2)) (newimg, 0)
    pure st.1) newimg

/-- Function `removeSeamV`.  The new width `Max.X - 1` is a natural number
subtraction, exact for every image of width at least 1. -/
def removeSeamV (img : Image) : Option Image := do
  let energy ← energy img
  let cumMinEnergy ← getCumMinEnergy energy
  let seam ← getSeamV cumMinEnergy
  let xsize := img.w - 1
  let ysize := img.h
  let newimg := NewRGBA xsize ysize
  copyPixels img seam xsize ysize newimg

/-- Function `transposeImage`. -/
def transposeImage (img : Image) : Image :=
  let xsize := img.w
  let ysize := img.h
  let newimg := NewRGBA ysize xsize
  forPure 0 ysize (fun newimg c =>
    forPure 0 xsize (fun newimg r => newimg.Set c r (img.At r c)) newimg) newimg

/-- The type assertion `img.(draw.Image)`, made by `main` on the current image before
every seam removal (lines 63, 66, 73 and 76) and by `removeSeamH` on the result of
`removeSeamV` (line 93): it panics when the type of the image has no `Set` method. -/
def assertDraw (img : Image) : Option Image :=
  if img.draw then some img else none

/-- Function `removeSeamH`. -/
def removeSeamH (img : Image) : Option Image := do
  -- Transpose image and delete vertical Seam
  let newimg ← removeSeamV (transposeImage img)
  -- Transpose back
  let newimg ← assertDraw newimg
  pure (transposeImage newimg)

/-! ## Resize driver -/

/-- Which seam removal a loop iteration of `main` called: `H` for `removeSeamH`, `V` for
`removeSeamV`. -/
inductive Axis where
  | H
  | V
deriving DecidableEq, Repr

/-- The variables of the resize loops of `main`; `calls` is a ghost record of the seam
removals called so far, oldest first. -/
structure Driver where
  img : Image
  seamcounterX : Int
  seamcounterY : Int
  calls : List Axis
deriving DecidableEq, Repr

/-- How a run of the resize part of `main` ends: `log.Fatal`, a run-time panic, or the
image that is handed to the encoder. -/
inductive Outcome where
  | fatal (msg : String)
  | panicked
  | finished (st : Driver)
deriving DecidableEq, Repr

/-- The three resize loops of `main` (lines 60 to 77). -/
def resizeLoops (st : Driver) (minseamCounter : Int) : Option Driver := do
  -- Seams are removed alternating between horizontal and vertical
  let st ← forLoop 0 (minseamCounter * 2).toNat (fun st i =>
    if i % 2 = 0 then do
      let img ← assertDraw st.img
      let img ← removeSeamH img
      pure { st with img := img, seamcounterY := st.seamcounterY - 1,
                     calls := st.calls ++ [Axis.H] }
    else do
      let img ← assertDraw st.img
      let img ← removeSeamV img
      pure { st with img := img, seamcounterX := st.seamcounterX - 1,
                     calls := st.calls ++ [Axis.V] }) st
  -- remove leftover Seams when alternating is not possible
  let st ← forLoop 0 st.seamcounterX.toNat (fun st _ => do
    let img ← assertDraw st.img
    let img ← removeSeamV img
    pure { st with img := img, calls := st.calls ++ [Axis.V] }) st
  forLoop 0 st.seamcounterY.toNat (fun st _ => do
    let img ← assertDraw st.img
    let img ← removeSeamH img
    pure { st with img := img, calls := st.calls ++ [Axis.H] }) st

/-- The resize part of `main` (lines 36 to 77) for a decoded image and parsed target
sizes.  The sizes are mathematical integers: the subtractions of lines 46 and 47 wrap in
Go only for a target below `-2^63 + W`, which does not occur for the targets of the
properties below apart from the choice between the two size messages. -/
def resize (img : Image) (xsizenew ysizenew : Int) : Outcome :=
  -- Get old image size
  let xsizeold : Int := img.w
  let ysizeold : Int := img.h
  let seamcounterX := xsizeold - xsizenew
  let seamcounterY := ysizeold - ysizenew
  if seamcounterX < 0 then
    Outcome.fatal "New xsize is bigger than old one. Please supply valid sizes"
  else if seamcounterY < 0 then
    Outcome.fatal "New ysize is bigger than old one. Please supply valid sizes"
  else
    -- calculate smaller counter to alternate between horizontal and vertical Seam removal
    let minseamCounter := if seamcounterX ≤ seamcounterY then seamcounterX else seamcounterY
    match resizeLoops ⟨img, seamcounterX, seamcounterY, []⟩ minseamCounter with
    | none => Outcome.panicked
    | some st => Outcome.finished st

/-! ## Vocabulary of the properties -/

instance (img : Image) : Decidable img.WF := by
  unfold Image.WF; infer_instance

/-- The image is an `*image.RGBA`: well formed, with a `Set` method, zero outside its
rectangle, and every pixel a `color.RGBA`, that is a colour `color.RGBAModel.Convert`
leaves unchanged.  Every image the program creates is of this kind. -/
def Image.IsRGBA (img : Image) : Prop :=
  img.WF ∧ img.draw = true ∧ img.outside = Color.zero ∧
    ∀ y, y < img.h → ∀ x, x < img.w → rgbaModelConvert (img.At x y) = img.At x y

instance (img : Image) : Decidable img.IsRGBA := by
  unfold Image.IsRGBA; infer_instance

/-- The seam that `removeSeamV` removes: lines 99 to 103 of `removeSeamV`, that is
`getSeamV(getCumMinEnergy(energy(img)))`. -/
def seamOf (img : Image) : Option (List Nat) := do
  let energy ← energy img
  let cumMinEnergy ← getCumMinEnergy energy
  getSeamV cumMinEnergy

/-- Total energy of a seam: the sum over the rows `r` of `energy[r][seam[r]]`. -/
def seamEnergy (energy : Grid) (seam : List Nat) : Int :=
  ((List.range seam.length).map (fun r => energy.val r (seam.getD r 0))).sum

/-- A connected seam through the interior columns of a grid of `W` columns and `H` rows:
one column per row, every column in `1..W-2`, columns of adjacent rows at most 1 apart. -/
def InteriorSeam (W H : Nat) (p : List Nat) : Prop :=
  p.length = H ∧ (∀ c ∈ p, 1 ≤ c ∧ c + 2 ≤ W) ∧
    ∀ r, r < H - 1 → p.getD r 0 ≤ p.getD (r + 1) 0 + 1 ∧ p.getD (r + 1) 0 ≤ p.getD r 0 + 1

instance (W H : Nat) (p : List Nat) : Decidable (InteriorSeam W H p) := by
  unfold InteriorSeam; infer_instance

/-- Pixel read that reports, by `none`, a position outside the rectangle (where `At`
silently yields the colour `outside`). -/
def Image.atChecked (img : Image) (x y : Nat) : Option Color :=
  if x < img.w ∧ y < img.h then some (img.At x y) else none

/-- Pixel write that reports, by `none`, a position outside the rectangle (where `Set`
silently does nothing). -/
def Image.setChecked (img : Image) (x y : Nat) (c : Color) : Option Image :=
  if x < img.w ∧ y < img.h then some (img.Set x y c) else none

/-- Function `transposeImage` with every pixel access checked against the rectangle of
the image it touches. -/
def transposeImageChecked (img : Image) : Option Image :=
  let xsize := img.w
  let ysize := img.h
  let newimg := NewRGBA ysize xsize
  forLoop 0 ysize (fun newimg c =>
    forLoop 0 xsize (fun newimg r => do
      let p ← img.atChecked r c
      newimg.setChecked c r p) newimg) newimg

/-- The image of width `w` and height `h` with a `Set` method whose pixels all have the
colour `c`; an `*image.RGBA` when `c` is a `color.RGBA`. -/
def uniformImage (w h : Nat) (c : Color) : Image :=
  ⟨w, h, List.replicate h (List.replicate w c), true, Color.zero⟩

/-- Closed form of the value that `getCumMinEnergy` leaves in `cumMinEnergy[r][c]` for a
grid of `xsize` columns.  Row 0 and the columns 0 and `xsize-1` keep the zero of `make`.
In a later row the statement executed last decides: the right border statement (line 142)
comes after the left border one (line 140), which matters only when `xsize = 3`, and the
inner loop (line 145) writes the columns `2..xsize-3`. -/
def cumValue (energy : Grid) (xsize : Nat) : Nat → Nat → Int
  | 0, _ => 0
  | r + 1, c =>
    if c = 0 ∨ xsize ≤ c + 1 then 0
    else if c = xsize - 2 then
      energy.val (r + 1) c +
        min (cumValue energy xsize r (xsize - 2)) (cumValue energy xsize r (xsize - 3))
    else if c = 1 then
      energy.val (r + 1) c + min (cumValue energy xsize r 1) (cumValue energy xsize r 2)
    else
      energy.val (r + 1) c +
        min (cumValue energy xsize r (c - 1))
          (min (cumValue energy xsize r c) (cumValue energy xsize r (c + 1)))

/-- The column that one iteration of the upward traversal of `getSeamV` (lines 171 to
206) moves to, from column `minIndex`, reading row `i` of the cumulative map: the new
value of `minIndex` computed by `seamStep`. -/
def stepCol (cumMinEnergy : Grid) (xsize minIndex i : Nat) : Nat :=
  if minIndex = 1 then
    if cumMinEnergy.val i minIndex < cumMinEnergy.val i (minIndex + 1) then minIndex
    else minIndex + 1
  else if minIndex = xsize - 1 then
    if cumMinEnergy.val i minIndex < cumMinEnergy.val i (minIndex - 1) then minIndex
    else minIndex - 1
  else if cumMinEnergy.val i (minIndex - 1) < cumMinEnergy.val i minIndex ∧
      cumMinEnergy.val i (minIndex - 1) < cumMinEnergy.val i (minIndex + 1) then
    minIndex - 1
  else if cumMinEnergy.val i (minIndex + 1) < cumMinEnergy.val i minIndex ∧
      cumMinEnergy.val i (minIndex + 1) < cumMinEnergy.val i (minIndex - 1) then
    minIndex + 1
  else minIndex

/-- The variant of `getCumMinEnergy` that claim C20 compares with the source: it first
copies row 0 of the energy grid into row 0 of the cumulative grid and then runs the row
loop of `getCumMinEnergy` unchanged.  This function is not in the source. -/
def getCumMinEnergySeeded (energy : Grid) : Option Grid := do
  let row0 ← energy[0]?
  let xsize := row0.length
  let ysize := energy.length
  let cumMinEnergy := makeGrid ysize xsize
  -- seed row 0 from the energy grid
  let cumMinEnergy ← forLoop 0 xsize (fun cumMinEnergy c => do
    let e ← energy.get2 0 c
    cumMinEnergy.set2 0 c e) cumMinEnergy
  forLoop 1 ysize (fun cumMinEnergy r => do
    -- left border
    let cumMinEnergy ← assignMin2 energy cumMinEnergy r 1 1 2
    -- right border
    let cumMinEnergy ← assignMin2 energy cumMinEnergy r (xsize - 2) (xsize - 2) (xsize - 3)
    -- in between
    forLoop 2 (xsize - 2) (fun cumMinEnergy c => assignMin3 energy cumMinEnergy r c)
      cumMinEnergy) cumMinEnergy

/-! ## Concrete inputs -/

/-- The `color.RGBA` of the opaque grey with the stored bytes `(v, v, v, 255)`, as
`RGBA()` returns it. -/
def gray (v : Nat) : Color := ⟨257 * v, 257 * v, 257 * v, 65535⟩

/-- The `*image.RGBA` of width `w` and height `h` with the rows `pix`. -/
def rgbaImage (w h : Nat) (pix : List (List Color)) : Image := ⟨w, h, pix, true, Color.zero⟩

/-- A 3 x 3 image with nine different pixels. -/
def sample3x3 : Image :=
  rgbaImage 3 3 [[gray 1, gray 2, gray 3], [gray 4, gray 5, gray 6], [gray 7, gray 8, gray 9]]

/-- A 4 x 5 image. -/
def sample4x5 : Image :=
  rgbaImage 4 5 [[gray 1, gray 2, gray 3, gray 4], [gray 5, gray 6, gray 7, gray 8],
          [gray 9, gray 10, gray 11, gray 12], [gray 13, gray 14, gray 15, gray 16],
          [gray 17, gray 18, gray 19, gray 20]]

/-- A uniform black 3 x 3 image. -/
def black3x3 : Image :=
  rgbaImage 3 3 [[gray 0, gray 0, gray 0], [gray 0, gray 0, gray 0], [gray 0, gray 0, gray 0]]

/-- A black 5 x 3 image whose two leftmost pixels of the top row are brighter. -/
def brightCorner : Image :=
  rgbaImage 5 3 [[gray 1, gray 1, gray 0, gray 0, gray 0],
          [gray 0, gray 0, gray 0, gray 0, gray 0],
          [gray 0, gray 0, gray 0, gray 0, gray 0]]

/-- A black 6 x 3 image with one brighter column, column 1. -/
def brightColumn : Image :=
  rgbaImage 6 3 [[gray 0, gray 1, gray 0, gray 0, gray 0, gray 0],
          [gray 0, gray 1, gray 0, gray 0, gray 0, gray 0],
          [gray 0, gray 1, gray 0, gray 0, gray 0, gray 0]]

/-- The colour `color.NRGBA{40, 100, 0, 200}` as `RGBA()` returns it: each colour channel
is premultiplied, `257 * v * 200 / 255`, and alpha is `257 * 200`.
`color.RGBAModel.Convert` maps it to the `color.RGBA` with the bytes `(31, 78, 0, 200)`. -/
def nrgbaColor : Color := ⟨8062, 20156, 0, 51400⟩

/-- The colour `color.NRGBA{200, 10, 90, 200}` as `RGBA()` returns it. -/
def nrgbaColor2 : Color := ⟨40313, 2015, 18141, 51400⟩

/-- A 3 x 2 `*image.NRGBA` with translucent pixels. -/
def nrgba3x2 : Image :=
  ⟨3, 2, [[nrgbaColor, nrgbaColor2, nrgbaColor], [nrgbaColor2, nrgbaColor, nrgbaColor2]],
    true, Color.zero⟩

/-- A uniform 3 x 3 `*image.NRGBA` of the translucent colour `nrgbaColor`. -/
def nrgbaUniform3x3 : Image :=
  ⟨3, 3, List.replicate 3 (List.replicate 3 nrgbaColor), true, Color.zero⟩

/-- A uniform 3 x 3 image whose type has no `Set` method, such as the `*image.YCbCr` that
`image.Decode` returns for a colour JPEG.  The colour outside the rectangle is never read
and is left zero. -/
def noSetUniform3x3 : Image :=
  ⟨3, 3, List.replicate 3 (List.replicate 3 (gray 7)), false, Color.zero⟩

/-- An energy grid of 3 rows and 4 columns whose row 0 is zero. -/
def sampleEnergy : Grid := [[0, 0, 0, 0], [0, 3, 1, 0], [0, 2, 5, 0]]

/-- The cumulative map that `getCumMinEnergy` computes for the image `brightCorner`. -/
def brightCornerCum : Grid := [[0, 0, 0, 0, 0], [0, 3084, 1542, 0, 0], [0, 1542, 0, 0, 0]]

/-- The cumulative map that `getCumMinEnergy` computes for the image `brightColumn`. -/
def brightColumnCum : Grid :=
  [[0, 0, 0, 0, 0, 0], [0, 0, 3084, 0, 0, 0], [0, 0, 0, 0, 0, 0]]

/-- The all-zero cumulative map of 3 rows and 3 columns, the map of `black3x3`. -/
def zeroCum3x3 : Grid := [[0, 0, 0], [0, 0, 0], [0, 0, 0]]

/-- The all-zero cumulative map of 4 rows and 3 columns, the map of every uniform image
of width 3 and height 4. -/
def zeroCum4x3 : Grid := [[0, 0, 0], [0, 0, 0], [0, 0, 0], [0, 0, 0]]

/-- A cumulative map of 3 rows and 6 columns whose row 1 has its least value in
column 2, between two larger values. -/
def valleyCum : Grid := [[0, 0, 0, 0, 0, 0], [0, 5, 1, 5, 0, 0], [0, 3, 1, 9, 9, 0]]

/-! ## Loop invariants -/

theorem foldlM_inv {σ α : Type} (f : σ → α → Option σ) (l : List α) :
    ∀ (I : Nat → σ → Prop) (s0 : σ), I 0 s0 →
    (∀ k (hk : k < l.length) s, I k s → ∃ s', f s l[k] = some s' ∧ I (k + 1) s') →
    ∃ s', l.foldlM f s0 = some s' ∧ I l.length s' := by
  induction l with
  | nil => intro I s0 h0 _; exact ⟨s0, rfl, h0⟩
  | cons a l ih =>
    intro I s0 h0 hstep
    obtain ⟨s1, h1, hI1⟩ := hstep 0 (by simp) s0 h0
    obtain ⟨s2, h2, hI2⟩ := ih (fun k s => I (k + 1) s) s1 hI1 (by
      intro k hk s hs
      have := hstep (k + 1) (by simpa using hk) s hs
      simpa using this)
    refine ⟨s2, ?_, by simpa using hI2⟩
    simp only [List.getElem_cons_zero] at h1
    simp [List.foldlM, h1, h2]

theorem forLoop_inv {σ : Type} (lo hi : Nat) (body : σ → Nat → Option σ)
    (I : Nat → σ → Prop) (s0 : σ) (hle : lo ≤ hi) (h0 : I lo s0)
    (hstep : ∀ i s, lo ≤ i → i < hi → I i s → ∃ s', body s i = some s' ∧ I (i + 1) s') :
    ∃ s', forLoop lo hi body s0 = some s' ∧ I hi s' := by
  have := foldlM_inv body (List.range' lo (hi - lo)) (fun k s => I (lo + k) s) s0
    (by simpa using h0) (by
      intro k hk s hs
      simp only [List.length_range'] at hk
      have := hstep (lo + k) s (by omega) (by omega) hs
      simpa [List.getElem_range', Nat.add_assoc] using this)
  obtain ⟨s', h1, h2⟩ := this
  refine ⟨s', h1, ?_⟩
  simp only [List.length_range'] at h2
  have e : lo + (hi - lo) = hi := by omega
  rwa [e] at h2

theorem forLoop_empty {σ : Type} (lo hi : Nat) (body : σ → Nat → Option σ) (s0 : σ)
    (h : hi ≤ lo) : forLoop lo hi body s0 = some s0 := by
  have e : hi - lo = 0 := by omega
  simp [forLoop, e]

theorem forDown_inv {σ : Type} (hi lo : Nat) (body : σ → Nat → Option σ)
    (I : Nat → σ → Prop) (s0 : σ) (hle : lo ≤ hi) (h0 : I hi s0)
    (hstep : ∀ i s, lo < i → i ≤ hi → I i s → ∃ s', body s i = some s' ∧ I (i - 1) s') :
    ∃ s', forDown hi lo body s0 = some s' ∧ I lo s' := by
  have := foldlM_inv body (List.range' (lo + 1) (hi - lo)).reverse (fun k s => I (hi - k) s) s0
    (by simpa using h0) (by
      intro k hk s hs
      simp only [List.length_reverse, List.length_range'] at hk
      have := hstep (hi - k) s (by omega) (by omega) hs
      have e1 : lo + 1 + (hi - lo - 1 - k) = hi - k := by omega
      have e2 : hi - k - 1 = hi - (k + 1) := by omega
      simpa [List.getElem_reverse, List.getElem_range', e1, e2] using this)
  obtain ⟨s', h1, h2⟩ := this
  refine ⟨s', h1, ?_⟩
  simp only [List.length_reverse, List.length_range'] at h2
  have e : hi - (hi - lo) = lo := by omega
  rwa [e] at h2

theorem forDown_empty {σ : Type} (hi lo : Nat) (body : σ → Nat → Option σ) (s0 : σ)
    (h : hi ≤ lo) : forDown hi lo body s0 = some s0 := by
  have e : hi - lo = 0 := by omega
  simp [forDown, e]

theorem foldl_inv {σ α : Type} (f : σ → α → σ) (l : List α) :
    ∀ (I : Nat → σ → Prop) (s0 : σ), I 0 s0 →
    (∀ k (hk : k < l.length) s, I k s → I (k + 1) (f s l[k])) →
    I l.length (l.foldl f s0) := by
  induction l with
  | nil => intro I s0 h0 _; exact h0
  | cons a l ih =>
    intro I s0 h0 hstep
    have h1 := hstep 0 (by simp) s0 h0
    simp only [List.getElem_cons_zero] at h1
    have := ih (fun k s => I (k + 1) s) (f s0 a) h1 (by
      intro k hk s hs
      have := hstep (k + 1) (by simpa using hk) s hs
      simpa using this)
    simpa using this

theorem forPure_inv {σ : Type} (lo hi : Nat) (body : σ → Nat → σ)
    (I : Nat → σ → Prop) (s0 : σ) (hle : lo ≤ hi) (h0 : I lo s0)
    (hstep : ∀ i s, lo ≤ i → i < hi → I i s → I (i + 1) (body s i)) :
    I hi (forPure lo hi body s0) := by
  have := foldl_inv body (List.range' lo (hi - lo)) (fun k s => I (lo + k) s) s0
    (by simpa using h0) (by
      intro k hk s hs
      simp only [List.length_range'] at hk
      have := hstep (lo + k) s (by omega) (by omega) hs
      simpa [List.getElem_range', Nat.add_assoc] using this)
  simp only [List.length_range'] at this
  have e : lo + (hi - lo) = hi := by omega
  rw [e] at this
  exact this

/-! ## Image primitives -/

theorem WF_NewRGBA (w h : Nat) : (NewRGBA w h).WF := by
  refine ⟨by simp [NewRGBA], ?_⟩
  intro row hrow
  simp only [NewRGBA] at hrow
  rw [List.eq_of_mem_replicate hrow]
  simp [NewRGBA]

theorem At_NewRGBA (w h x y : Nat) : (NewRGBA w h).At x y = Color.zero := by
  unfold Image.At NewRGBA
  split
  · rename_i hxy
    simp only at hxy
    simp [List.getD_eq_getElem?_getD, List.getElem?_replicate, hxy.1, hxy.2]
  · rfl

theorem Set_w (img : Image) (x y : Nat) (c : Color) : (img.Set x y c).w = img.w := by
  unfold Image.Set; split <;> rfl

theorem Set_h (img : Image) (x y : Nat) (c : Color) : (img.Set x y c).h = img.h := by
  unfold Image.Set; split <;> rfl

theorem Set_draw (img : Image) (x y : Nat) (c : Color) :
    (img.Set x y c).draw = img.draw := by
  unfold Image.Set; split <;> rfl

theorem Set_outside (img : Image) (x y : Nat) (c : Color) :
    (img.Set x y c).outside = img.outside := by
  unfold Image.Set; split <;> rfl

theorem convertChannel_idem (v : Nat) : convertChannel (convertChannel v) = convertChannel v := by
  unfold convertChannel
  have hk : v / 256 % 256 < 256 := Nat.mod_lt _ (by decide)
  generalize v / 256 % 256 = k at hk
  have h1 : k * 257 / 256 = k := by omega
  rw [h1, Nat.mod_eq_of_lt hk]

theorem rgbaModelConvert_idem (c : Color) :
    rgbaModelConvert (rgbaModelConvert c) = rgbaModelConvert c := by
  simp only [rgbaModelConvert, convertChannel_idem]

theorem rgbaModelConvert_zero : rgbaModelConvert Color.zero = Color.zero := by
  decide

theorem WF_Set (img : Image) (x y : Nat) (c : Color) (hwf : img.WF) : (img.Set x y c).WF := by
  unfold Image.Set
  split
  · rename_i hxy
    refine ⟨by simpa using hwf.1, ?_⟩
    intro row hrow
    simp only at hrow
    rcases List.mem_or_eq_of_mem_set hrow with h | h
    · exact hwf.2 row h
    · subst h
      have hy : y < img.pix.length := by rw [hwf.1]; exact hxy.2
      simp only [List.length_set, List.getD_eq_getElem?_getD, List.getElem?_eq_getElem hy,
        Option.getD_some]
      exact hwf.2 _ (List.getElem_mem hy)
  · exact hwf

theorem At_Set (img : Image) (x y : Nat) (c : Color) (x' y' : Nat) (hwf : img.WF) :
    (img.Set x y c).At x' y' =
      if x' = x ∧ y' = y ∧ x < img.w ∧ y < img.h then rgbaModelConvert c
      else img.At x' y' := by
  unfold Image.Set
  by_cases hxy : x < img.w ∧ y < img.h
  · rw [if_pos hxy]
    have hy : y < img.pix.length := by rw [hwf.1]; exact hxy.2
    have hrow : (img.pix[y]).length = img.w := hwf.2 _ (List.getElem_mem hy)
    unfold Image.At
    by_cases hin : x' < img.w ∧ y' < img.h
    · simp only [hin, and_self, if_true]
      have hy' : y' < img.pix.length := by rw [hwf.1]; exact hin.2
      by_cases e2 : y' = y
      · subst e2
        by_cases e1 : x' = x
        · subst e1
          simp [List.getD_eq_getElem?_getD, hy, hrow, hxy.1, hxy.2]
        · simp [List.getD_eq_getElem?_getD, hy, e1, List.getElem?_set, Ne.symm e1]
      · simp [List.getD_eq_getElem?_getD, e2, List.getElem?_set, Ne.symm e2]
    · have : ¬ (x' = x ∧ y' = y ∧ x < img.w ∧ y < img.h) := by
        rintro ⟨rfl, rfl, h⟩; exact hin h
      simp [hin, this]
  · rw [if_neg hxy]
    have : ¬ (x' = x ∧ y' = y ∧ x < img.w ∧ y < img.h) := fun h => hxy h.2.2
    rw [if_neg this]

theorem row_spec (img : Image) (hwf : img.WF) (y : Nat) (hy : y < img.h) :
    ∃ row, img.pix[y]? = some row ∧ row.length = img.w ∧
      ∀ x, x < img.w → row[x]? = some (img.At x y) := by
  have hy' : y < img.pix.length := by rw [hwf.1]; exact hy
  have hrow : (img.pix[y]).length = img.w := hwf.2 _ (List.getElem_mem hy')
  refine ⟨img.pix[y], List.getElem?_eq_getElem hy', hrow, ?_⟩
  intro x hx
  have hx' : x < (img.pix[y]).length := by rw [hrow]; exact hx
  simp [Image.At, hx, hy, List.getD_eq_getElem?_getD, hy', hx']

theorem Image.ext_At (a b : Image) (ha : a.WF) (hb : b.WF) (hw : a.w = b.w) (hh : a.h = b.h)
    (hdr : a.draw = b.draw) (hout : a.outside = b.outside)
    (hAt : ∀ x y, x < a.w → y < a.h → a.At x y = b.At x y) : a = b := by
  have hp : a.pix = b.pix := by
    apply List.ext_getElem?
    intro y
    by_cases hy : y < a.h
    · obtain ⟨ra, h1, h2, h3⟩ := row_spec a ha y hy
      obtain ⟨rb, k1, k2, k3⟩ := row_spec b hb y (hh ▸ hy)
      rw [h1, k1]
      congr 1
      apply List.ext_getElem?
      intro x
      by_cases hx : x < a.w
      · rw [h3 x hx, k3 x (hw ▸ hx), hAt x y hx hy]
      · rw [List.getElem?_eq_none (by omega), List.getElem?_eq_none (by omega)]
    · rw [List.getElem?_eq_none (by have := ha.1; omega),
        List.getElem?_eq_none (by have := hb.1; omega)]
  obtain ⟨aw, ah, ap, ad, ao⟩ := a
  obtain ⟨bw, bh, bp, bd, bo⟩ := b
  simp only at hw hh hp hdr hout
  subst hw hh hp hdr hout
  rfl

/-! ## Transposition -/

theorem transposeImage_spec (img : Image) :
    (transposeImage img).WF ∧ (transposeImage img).w = img.h ∧ (transposeImage img).h = img.w ∧
      ∀ x y, x < img.h → y < img.w → (transposeImage img).At x y = rgbaModelConvert (img.At y x) := by
  have key := forPure_inv 0 img.h
    (fun newimg c => forPure 0 img.w (fun newimg r => newimg.Set c r (img.At r c)) newimg)
    (fun c n => n.WF ∧ n.w = img.h ∧ n.h = img.w ∧
      ∀ x y, x < c → y < img.w → n.At x y = rgbaModelConvert (img.At y x))
    (NewRGBA img.h img.w) (Nat.zero_le _)
    ⟨WF_NewRGBA _ _, rfl, rfl, fun x y hx _ => absurd hx (Nat.not_lt_zero x)⟩
    (by
      intro c n _ hc hn
      have inner := forPure_inv 0 img.w (fun newimg r => newimg.Set c r (img.At r c))
        (fun r m => m.WF ∧ m.w = img.h ∧ m.h = img.w ∧
          (∀ x y, x < c → y < img.w → m.At x y = rgbaModelConvert (img.At y x)) ∧
          ∀ y, y < r → m.At c y = rgbaModelConvert (img.At y c))
        n (Nat.zero_le _)
        ⟨hn.1, hn.2.1, hn.2.2.1, hn.2.2.2, fun y hy => absurd hy (Nat.not_lt_zero y)⟩
        (by
          intro r m _ hr hm
          obtain ⟨hwf, hw, hh, hold, hcol⟩ := hm
          refine ⟨WF_Set _ _ _ _ hwf, by rw [Set_w, hw], by rw [Set_h, hh], ?_, ?_⟩
          · intro x y hx hy
            rw [At_Set _ _ _ _ _ _ hwf, if_neg (by omega)]
            exact hold x y hx hy
          · intro y hy
            rw [At_Set _ _ _ _ _ _ hwf]
            by_cases e : y = r
            · subst e
              rw [if_pos ⟨rfl, rfl, by omega, by omega⟩]
            · rw [if_neg (by omega)]
              exact hcol y (by omega))
      obtain ⟨hwf, hw, hh, hold, hcol⟩ := inner
      refine ⟨hwf, hw, hh, ?_⟩
      intro x y hx hy
      by_cases e : x = c
      · subst e; exact hcol y hy
      · exact hold x y (by omega) hy)
  exact key

theorem transposeImage_kind (img : Image) :
    (transposeImage img).draw = true ∧ (transposeImage img).outside = Color.zero := by
  exact forPure_inv 0 img.h
    (fun newimg c => forPure 0 img.w (fun newimg r => newimg.Set c r (img.At r c)) newimg)
    (fun _ n => n.draw = true ∧ n.outside = Color.zero)
    (NewRGBA img.h img.w) (Nat.zero_le _) ⟨rfl, rfl⟩
    (by
      intro c n _ _ hn
      exact forPure_inv 0 img.w (fun newimg r => newimg.Set c r (img.At r c))
        (fun _ m => m.draw = true ∧ m.outside = Color.zero) n (Nat.zero_le _) hn
        (by
          intro r m _ _ hm
          exact ⟨by rw [Set_draw]; exact hm.1, by rw [Set_outside]; exact hm.2⟩))

/-! ## Grids and the energy map -/

theorem makeGrid_Dim (H W : Nat) : (makeGrid H W).Dim H W := by
  refine ⟨by simp [makeGrid], ?_⟩
  intro row hrow
  simp only [makeGrid] at hrow
  rw [List.eq_of_mem_replicate hrow]
  simp

theorem makeGrid_val (H W r c : Nat) : (makeGrid H W).val r c = 0 := by
  unfold Grid.val makeGrid
  simp only [List.getD_eq_getElem?_getD, List.getElem?_replicate]
  by_cases hr : r < H
  · by_cases hc : c < W <;> simp [hr, hc]
  · simp [hr]

theorem get2_eq (g : Grid) (H W r c : Nat) (hd : g.Dim H W) (hr : r < H) (hc : c < W) :
    g.get2 r c = some (g.val r c) := by
  have hr' : r < g.length := by rw [hd.1]; exact hr
  have hrow : (g[r]).length = W := hd.2 _ (List.getElem_mem hr')
  have hc' : c < (g[r]).length := by rw [hrow]; exact hc
  simp [Grid.get2, Grid.val, List.getD_eq_getElem?_getD, hr', hc']

theorem set2_spec (g : Grid) (H W r c : Nat) (v : Int) (hd : g.Dim H W) (hr : r < H)
    (hc : c < W) :
    ∃ g', g.set2 r c v = some g' ∧ g'.Dim H W ∧
      ∀ r' c', g'.val r' c' = if r' = r ∧ c' = c then v else g.val r' c' := by
  have hr' : r < g.length := by rw [hd.1]; exact hr
  have hrow : (g[r]).length = W := hd.2 _ (List.getElem_mem hr')
  have hc' : c < (g[r]).length := by rw [hrow]; exact hc
  refine ⟨g.set r ((g[r]).set c v), ?_, ⟨by simpa using hd.1, ?_⟩, ?_⟩
  · simp [Grid.set2, hr', hc']
  · intro row hrow'
    rcases List.mem_or_eq_of_mem_set hrow' with h | h
    · exact hd.2 row h
    · subst h; simpa using hrow
  · intro r' c'
    unfold Grid.val
    by_cases e2 : r' = r
    · subst e2
      by_cases e1 : c' = c
      · subst e1
        simp [List.getD_eq_getElem?_getD, hr', hc']
      · simp [List.getD_eq_getElem?_getD, hr', e1, List.getElem?_set, Ne.symm e1]
    · simp [List.getD_eq_getElem?_getD, e2, List.getElem?_set, Ne.symm e2]

theorem lt_eq (g : Grid) (H W r1 c1 r2 c2 : Nat) (hd : g.Dim H W) (h1 : r1 < H) (h2 : c1 < W)
    (h3 : r2 < H) (h4 : c2 < W) :
    g.lt r1 c1 r2 c2 = some (decide (g.val r1 c1 < g.val r2 c2)) := by
  simp [Grid.lt, get2_eq g H W r1 c1 hd h1 h2, get2_eq g H W r2 c2 hd h3 h4]

theorem setIdx_eq (seam : List Nat) (i v : Nat) (h : i < seam.length) :
    setIdx seam i v = some (seam.set i v) := by
  simp [setIdx, h]

theorem forLoop_const {σ : Type} (lo hi : Nat) (body : σ → Nat → Option σ)
    (P : σ → Prop) (s0 : σ) (h0 : P s0)
    (hstep : ∀ i s, lo ≤ i → i < hi → P s → ∃ s', body s i = some s' ∧ P s') :
    ∃ s', forLoop lo hi body s0 = some s' ∧ P s' := by
  by_cases hle : lo ≤ hi
  · exact forLoop_inv lo hi body (fun _ s => P s) s0 hle h0 hstep
  · exact ⟨s0, forLoop_empty lo hi body s0 (by omega), h0⟩

theorem forDown_const {σ : Type} (hi lo : Nat) (body : σ → Nat → Option σ)
    (P : σ → Prop) (s0 : σ) (h0 : P s0)
    (hstep : ∀ i s, lo < i → i ≤ hi → P s → ∃ s', body s i = some s' ∧ P s') :
    ∃ s', forDown hi lo body s0 = some s' ∧ P s' := by
  by_cases hle : lo ≤ hi
  · exact forDown_inv hi lo body (fun _ s => P s) s0 hle h0 hstep
  · exact ⟨s0, forDown_empty hi lo body s0 (by omega), h0⟩

theorem absF_nonneg (x : Int) : 0 ≤ absF x := by
  unfold absF; split <;> omega

theorem sobelX_val (s1 s2 s3 s4 s5 s6 : Color) :
    sobelX s1 s2 s3 s4 s5 s6 = some (0
      + absF ((s1.r : Int) + 2 * (s2.r : Int) + (s3.r : Int)
          - (s4.r : Int) - 2 * (s5.r : Int) - (s6.r : Int))
      + absF ((s1.g : Int) + 2 * (s2.g : Int) + (s3.g : Int)
          - (s4.g : Int) - 2 * (s5.g : Int) - (s6.g : Int))
      + absF ((s1.b : Int) + 2 * (s2.b : Int) + (s3.b : Int)
          - (s4.b : Int) - 2 * (s5.b : Int) - (s6.b : Int))
      + absF ((s1.a : Int) + 2 * (s2.a : Int) + (s3.a : Int)
          - (s4.a : Int) - 2 * (s5.a : Int) - (s6.a : Int))) := rfl

theorem sobelY_val (s1 s2 s3 s4 s5 s6 : Color) :
    sobelY s1 s2 s3 s4 s5 s6 = sobelX s1 s2 s3 s4 s5 s6 := rfl

theorem sobelX_eq (s1 s2 s3 s4 s5 s6 : Color) :
    ∃ v, sobelX s1 s2 s3 s4 s5 s6 = some v ∧ 0 ≤ v := by
  refine ⟨_, sobelX_val s1 s2 s3 s4 s5 s6, ?_⟩
  have h1 := absF_nonneg ((s1.r : Int) + 2 * (s2.r : Int) + (s3.r : Int)
    - (s4.r : Int) - 2 * (s5.r : Int) - (s6.r : Int))
  have h2 := absF_nonneg ((s1.g : Int) + 2 * (s2.g : Int) + (s3.g : Int)
    - (s4.g : Int) - 2 * (s5.g : Int) - (s6.g : Int))
  have h3 := absF_nonneg ((s1.b : Int) + 2 * (s2.b : Int) + (s3.b : Int)
    - (s4.b : Int) - 2 * (s5.b : Int) - (s6.b : Int))
  have h4 := absF_nonneg ((s1.a : Int) + 2 * (s2.a : Int) + (s3.a : Int)
    - (s4.a : Int) - 2 * (s5.a : Int) - (s6.a : Int))
  omega

theorem sobelY_eq (s1 s2 s3 s4 s5 s6 : Color) :
    ∃ v, sobelY s1 s2 s3 s4 s5 s6 = some v ∧ 0 ≤ v := by
  rw [sobelY_val]; exact sobelX_eq s1 s2 s3 s4 s5 s6

theorem energy_total (img : Image) :
    ∃ e, energy img = some e ∧ e.Dim img.h img.w ∧ ∀ r c, 0 ≤ e.val r c := by
  unfold energy
  refine forLoop_const 0 img.w _ (fun (e : Grid) => e.Dim img.h img.w ∧ ∀ r c, 0 ≤ e.val r c) _ ?_ ?_
  · exact ⟨makeGrid_Dim _ _, fun r c => by rw [makeGrid_val]⟩
  · intro c e _ hc he
    refine forLoop_const 0 img.h _ (fun (e : Grid) => e.Dim img.h img.w ∧ ∀ r c, 0 ≤ e.val r c) e he ?_
    intro r e _ hr he
    obtain ⟨hd, hnn⟩ := he
    split
    · obtain ⟨g, h1, h2, h3⟩ := set2_spec e img.h img.w r c 0 hd hr hc
      refine ⟨g, h1, h2, ?_⟩
      intro r' c'
      rw [h3]; split
      · exact le_refl _
      · exact hnn r' c'
    · obtain ⟨dx, hx, hx0⟩ := sobelX_eq (img.At (c - 1) (r - 1)) (img.At (c - 1) r)
        (img.At (c - 1) (r + 1)) (img.At (c + 1) (r - 1)) (img.At (c + 1) r)
        (img.At (c + 1) (r + 1))
      obtain ⟨dy, hy, hy0⟩ := sobelY_eq (img.At (c - 1) (r - 1)) (img.At c (r - 1))
        (img.At (c + 1) (r - 1)) (img.At (c - 1) (r + 1)) (img.At c (r + 1))
        (img.At (c + 1) (r + 1))
      obtain ⟨g, h1, h2, h3⟩ := set2_spec e img.h img.w r c (dx + dy) hd hr hc
      refine ⟨g, ?_, h2, ?_⟩
      · simp only [hx, hy, Option.bind_eq_bind, Option.some_bind]
        exact h1
      · intro r' c'
        rw [h3]; split
        · omega
        · exact hnn r' c'

/-! ## Cumulative map and seam location -/

theorem row0_spec (g : Grid) (H W : Nat) (hd : g.Dim H W) (hH : 1 ≤ H) :
    ∃ row0, g[0]? = some row0 ∧ row0.length = W := by
  have h0 : 0 < g.length := by rw [hd.1]; exact hH
  exact ⟨g[0], List.getElem?_eq_getElem h0, hd.2 _ (List.getElem_mem h0)⟩

theorem assignMin2_spec (e g : Grid) (H W r c c1 c2 : Nat) (hd : e.Dim H W) (hg : g.Dim H W)
    (hr1 : 1 ≤ r) (hr : r < H) (hc : c < W) (hc1 : c1 < W) (hc2 : c2 < W) :
    ∃ g', assignMin2 e g r c c1 c2 = some g' ∧ g'.Dim H W ∧
      ∀ r' c', g'.val r' c' =
        if r' = r ∧ c' = c then e.val r c + min (g.val (r - 1) c1) (g.val (r - 1) c2)
        else g.val r' c' := by
  obtain ⟨g1, k1, hg1, hv1⟩ := set2_spec g H W r c
    (e.val r c + min (g.val (r - 1) c1) (g.val (r - 1) c2)) hg hr hc
  refine ⟨g1, ?_, hg1, hv1⟩
  unfold assignMin2
  simp only [get2_eq e H W r c hd hr hc, get2_eq g H W (r - 1) c1 hg (by omega) hc1,
    get2_eq g H W (r - 1) c2 hg (by omega) hc2, Option.bind_eq_bind, Option.some_bind, k1]

theorem assignMin3_spec (e g : Grid) (H W r c : Nat) (hd : e.Dim H W) (hg : g.Dim H W)
    (hr1 : 1 ≤ r) (hr : r < H) (hc1 : 1 ≤ c) (hc : c + 1 < W) :
    ∃ g', assignMin3 e g r c = some g' ∧ g'.Dim H W ∧
      ∀ r' c', g'.val r' c' =
        if r' = r ∧ c' = c then
          e.val r c + min (g.val (r - 1) (c - 1)) (min (g.val (r - 1) c) (g.val (r - 1) (c + 1)))
        else g.val r' c' := by
  obtain ⟨g1, k1, hg1, hv1⟩ := set2_spec g H W r c
    (e.val r c + min (g.val (r - 1) (c - 1)) (min (g.val (r - 1) c) (g.val (r - 1) (c + 1))))
    hg hr (by omega)
  refine ⟨g1, ?_, hg1, hv1⟩
  unfold assignMin3
  simp only [get2_eq e H W r c hd hr (by omega),
    get2_eq g H W (r - 1) (c - 1) hg (by omega) (by omega),
    get2_eq g H W (r - 1) c hg (by omega) (by omega),
    get2_eq g H W (r - 1) (c + 1) hg (by omega) hc, Option.bind_eq_bind, Option.some_bind, k1]

theorem getCumMinEnergy_total (e : Grid) (H W : Nat) (hd : e.Dim H W) (hH : 1 ≤ H)
    (hW : 3 ≤ W) : ∃ cum, getCumMinEnergy e = some cum ∧ cum.Dim H W := by
  obtain ⟨row0, h0, hlen⟩ := row0_spec e H W hd hH
  unfold getCumMinEnergy
  simp only [h0, hlen, hd.1, Option.bind_eq_bind, Option.some_bind]
  refine forLoop_const 1 H _ (fun (g : Grid) => g.Dim H W) _ (makeGrid_Dim _ _) ?_
  intro r g hr1 hr hg
  obtain ⟨g1, k1, hg1, _⟩ := assignMin2_spec e g H W r 1 1 2 hd hg hr1 hr (by omega) (by omega)
    (by omega)
  obtain ⟨g2, k2, hg2, _⟩ := assignMin2_spec e g1 H W r (W - 2) (W - 2) (W - 3) hd hg1 hr1 hr
    (by omega) (by omega) (by omega)
  simp only [k1, k2, Option.some_bind]
  refine forLoop_const 2 (W - 2) _ (fun (g : Grid) => g.Dim H W) _ hg2 ?_
  intro c g3 hc2 hc hg3
  obtain ⟨g4, k4, hg4, _⟩ := assignMin3_spec e g3 H W r c hd hg3 hr1 hr (by omega) (by omega)
  exact ⟨g4, k4, hg4⟩

theorem seamStep_spec (cum : Grid) (H W : Nat) (hd : cum.Dim H W) (hW : 3 ≤ W)
    (m : Nat) (seam : List Nat) (i : Nat) (hi : i < H) (hlen : seam.length = H)
    (hm1 : 1 ≤ m) (hm2 : m ≤ W - 1) :
    ∃ m', seamStep cum W (m, seam) i = some (m', seam.set i m') ∧ 1 ≤ m' ∧ m' ≤ W - 1 ∧
      m' ≤ m + 1 ∧ m ≤ m' + 1 := by
  have hi' : i < seam.length := by rw [hlen]; exact hi
  unfold seamStep
  simp only
  by_cases h1 : m = 1
  · subst h1
    simp only [if_true, lt_eq cum H W i 1 i (1 + 1) hd hi (by omega) hi (by omega),
      Option.bind_eq_bind, Option.some_bind, setIdx_eq seam i _ hi']
    split
    · exact ⟨1, rfl, by omega, by omega, by omega, by omega⟩
    · exact ⟨2, rfl, by omega, by omega, by omega, by omega⟩
  · rw [if_neg h1]
    by_cases h2 : m = W - 1
    · rw [if_pos h2]
      simp only [lt_eq cum H W i m i (m - 1) hd hi (by omega) hi (by omega),
        Option.bind_eq_bind, Option.some_bind, setIdx_eq seam i _ hi']
      split
      · exact ⟨m, rfl, by omega, by omega, by omega, by omega⟩
      · exact ⟨m - 1, rfl, by omega, by omega, by omega, by omega⟩
    · rw [if_neg h2]
      simp only [lt_eq cum H W i (m - 1) i m hd hi (by omega) hi (by omega),
        lt_eq cum H W i (m - 1) i (m + 1) hd hi (by omega) hi (by omega),
        lt_eq cum H W i (m + 1) i m hd hi (by omega) hi (by omega),
        lt_eq cum H W i (m + 1) i (m - 1) hd hi (by omega) hi (by omega),
        Option.bind_eq_bind, setIdx_eq seam i _ hi']
      generalize hA : decide (cum.val i (m - 1) < cum.val i m) = A
      generalize hB : decide (cum.val i (m - 1) < cum.val i (m + 1)) = B
      generalize hC : decide (cum.val i (m + 1) < cum.val i m) = C
      generalize hD : decide (cum.val i (m + 1) < cum.val i (m - 1)) = D
      cases A <;> cases B <;> cases C <;> cases D <;>
        simp only [andAlso, Option.some_bind, Bool.false_eq_true, if_false, if_true, pure] <;>
        first
          | exact ⟨m, rfl, by omega, by omega, by omega, by omega⟩
          | exact ⟨m - 1, rfl, by omega, by omega, by omega, by omega⟩
          | exact ⟨m + 1, rfl, by omega, by omega, by omega, by omega⟩

theorem getSeamV_spec (cum : Grid) (H W : Nat) (hd : cum.Dim H W) (hH : 1 ≤ H) (hW : 3 ≤ W) :
    ∃ seam, getSeamV cum = some seam ∧ seam.length = H ∧ ∀ s ∈ seam, s < W := by
  obtain ⟨row0, h0, hlen⟩ := row0_spec cum H W hd hH
  unfold getSeamV
  simp only [h0, hlen, hd.1, Option.bind_eq_bind, Option.some_bind]
  obtain ⟨m0, hscan, hm0⟩ := forLoop_const 1 (W - 3) (fun minIndex i => do
      let a ← cum.get2 (H - 1) i
      let b ← cum.get2 (H - 1) minIndex
      pure (if a ≤ b then i else minIndex)) (fun m => 1 ≤ m ∧ m ≤ W - 2) 1 ⟨le_refl _, by omega⟩
    (by
      intro i m hi1 hi hm
      simp only [get2_eq cum H W (H - 1) i hd (by omega) (by omega),
        get2_eq cum H W (H - 1) m hd (by omega) (by omega), Option.bind_eq_bind,
        Option.some_bind]
      refine ⟨_, rfl, ?_⟩
      split <;> omega)
  simp only [Option.bind_eq_bind] at hscan
  simp only [hscan, Option.some_bind,
    setIdx_eq (List.replicate H 0) (H - 1) m0 (by simp; omega)]
  obtain ⟨st, hst, hP⟩ := forDown_const (H - 2) 0 (seamStep cum W)
    (fun (st : Nat × List Nat) => 1 ≤ st.1 ∧ st.1 ≤ W - 1 ∧ st.2.length = H ∧ ∀ s ∈ st.2, s < W)
    (m0, (List.replicate H 0).set (H - 1) m0)
    ⟨hm0.1, by have := hm0.2; simp only; omega, by simp, by
      intro s hs
      rcases List.mem_or_eq_of_mem_set hs with h | h
      · rw [List.eq_of_mem_replicate h]; omega
      · subst h; omega⟩
    (by
      intro i st hi0 hi hst
      obtain ⟨m, seam⟩ := st
      obtain ⟨hm1, hm2, hl, hall⟩ := hst
      simp only at hm1 hm2 hl hall
      obtain ⟨m', hstep, hm1', hm2', _, _⟩ :=
        seamStep_spec cum H W hd hW m seam i (by omega) hl hm1 hm2
      refine ⟨_, hstep, hm1', hm2', by simpa using hl, ?_⟩
      intro s hs
      rcases List.mem_or_eq_of_mem_set hs with h | h
      · exact hall s h
      · subst h; omega)
  refine ⟨st.2, ?_, hP.2.2.1, hP.2.2.2⟩
  simp only [hst, Option.some_bind]
  rfl

/-! ## The pixel copy loop -/

theorem copyRow_spec (img : Image) (r s X H : Nat) (n0 : Image) (hwf : n0.WF) (hw : n0.w = X)
    (hh : n0.h = H) (hr : r < H) (seam : List Nat) (hs : seam[r]? = some s) :
    ∃ st, forLoop 0 (X + 1) (fun (st : Image × Nat) oldx => do
        let newimg := st.1.Set st.2 r (img.At oldx r)
        let s ← seam[r]?
        pure (newimg, if oldx ≠ s then st.2 + 1 else st.2)) (n0, 0) = some st ∧
      st.1.WF ∧ st.1.w = X ∧ st.1.h = H ∧
      (∀ x y, y ≠ r → st.1.At x y = n0.At x y) ∧
      (∀ x, x < X → st.1.At x r = if x < s then rgbaModelConvert (img.At x r) else rgbaModelConvert (img.At (x + 1) r)) := by
  obtain ⟨st, h1, h2⟩ := forLoop_inv 0 (X + 1) (fun (st : Image × Nat) oldx => do
        let newimg := st.1.Set st.2 r (img.At oldx r)
        let s ← seam[r]?
        pure (newimg, if oldx ≠ s then st.2 + 1 else st.2))
    (fun k (st : Image × Nat) => st.1.WF ∧ st.1.w = X ∧ st.1.h = H ∧
      st.2 = (if k ≤ s then k else k - 1) ∧
      (∀ x y, y ≠ r → st.1.At x y = n0.At x y) ∧
      (∀ x, x < st.2 → x < X → st.1.At x r = if x < s then rgbaModelConvert (img.At x r) else rgbaModelConvert (img.At (x + 1) r)))
    (n0, 0) (Nat.zero_le _)
    ⟨hwf, hw, hh, by simp, fun _ _ _ => rfl, fun x hx => absurd hx (Nat.not_lt_zero x)⟩
    (by
      intro k st _ hk hst
      obtain ⟨n, newx⟩ := st
      obtain ⟨kwf, kw, kh, knew, kother, krow⟩ := hst
      simp only at kwf kw kh knew kother krow
      simp only [hs, Option.bind_eq_bind, Option.some_bind]
      refine ⟨_, rfl, WF_Set _ _ _ _ kwf, by rw [Set_w, kw], by rw [Set_h, kh], ?_, ?_, ?_⟩
      · simp only [knew]
        split_ifs <;> omega
      · intro x y hy
        simp only
        rw [At_Set _ _ _ _ _ _ kwf, if_neg (by omega)]
        exact kother x y hy
      · intro x hx hxX
        simp only at hx ⊢
        rw [At_Set _ _ _ _ _ _ kwf]
        by_cases e : x = newx
        · have hb1 : newx < n.w := by omega
          have hb2 : r < n.h := by omega
          rw [if_pos ⟨e, rfl, hb1, hb2⟩]
          split_ifs at hx knew ⊢ <;> first | omega | (congr 2; omega)
        · rw [if_neg (by omega)]
          apply krow x _ hxX
          split_ifs at hx <;> omega)
  refine ⟨st, h1, h2.1, h2.2.1, h2.2.2.1, h2.2.2.2.2.1, ?_⟩
  intro x hx
  apply h2.2.2.2.2.2 x _ hx
  rw [h2.2.2.2.1]
  split_ifs <;> omega

theorem copyPixels_spec (img : Image) (seam : List Nat) (X H : Nat) (hlen : seam.length = H) :
    ∃ out, copyPixels img seam X H (NewRGBA X H) = some out ∧ out.WF ∧ out.w = X ∧ out.h = H ∧
      ∀ r, r < H → ∀ x, x < X →
        out.At x r = if x < seam.getD r 0 then rgbaModelConvert (img.At x r)
          else rgbaModelConvert (img.At (x + 1) r) := by
  unfold copyPixels
  obtain ⟨out, h1, h2⟩ := forLoop_inv 0 H (fun newimg r => do
      let st ← forLoop 0 (X + 1) (fun (st : Image × Nat) oldx => do
        let newimg := st.1.Set st.2 r (img.At oldx r)
        let s ← seam[r]?
        pure (newimg, if oldx ≠ s then st.2 + 1 else st.2)) (newimg, 0)
      pure st.1)
    (fun k (n : Image) => n.WF ∧ n.w = X ∧ n.h = H ∧
      ∀ r, r < k → ∀ x, x < X →
        n.At x r = if x < seam.getD r 0 then rgbaModelConvert (img.At x r)
          else rgbaModelConvert (img.At (x + 1) r))
    (NewRGBA X H) (Nat.zero_le _)
    ⟨WF_NewRGBA _ _, rfl, rfl, fun r hr => absurd hr (Nat.not_lt_zero r)⟩
    (by
      intro r n _ hr hn
      obtain ⟨kwf, kw, kh, krows⟩ := hn
      have hr' : r < seam.length := by rw [hlen]; exact hr
      have hs : seam[r]? = some (seam.getD r 0) := by
        simp [List.getD_eq_getElem?_getD, hr']
      obtain ⟨st, k1, k2, k3, k4, k5, k6⟩ :=
        copyRow_spec img r (seam.getD r 0) X H n kwf kw kh hr seam hs
      refine ⟨st.1, ?_, k2, k3, k4, ?_⟩
      · simp only [Option.bind_eq_bind] at k1 ⊢
        rw [k1]; rfl
      · intro r' hr' x hx
        by_cases e : r' = r
        · subst e; exact k6 x hx
        · rw [k5 x r' e]; exact krows r' (by omega) x hx)
  exact ⟨out, h1, h2⟩

theorem foldlM_preserves {σ α : Type} (f : σ → α → Option σ) (Q : σ → Prop)
    (hf : ∀ s a s', Q s → f s a = some s' → Q s') (l : List α) :
    ∀ s0 s', Q s0 → l.foldlM f s0 = some s' → Q s' := by
  induction l with
  | nil =>
    intro s0 s' h0 h
    simp only [List.foldlM, pure] at h
    cases h
    exact h0
  | cons a l ih =>
    intro s0 s' h0 h
    simp only [List.foldlM, bind, Option.bind] at h
    cases hfa : f s0 a with
    | none => rw [hfa] at h; cases h
    | some s1 =>
      rw [hfa] at h
      exact ih s1 s' (hf s0 a s1 h0 hfa) h

theorem copyPixels_kind (img : Image) (seam : List Nat) (X H : Nat) (n0 out : Image)
    (h : copyPixels img seam X H n0 = some out) :
    out.draw = n0.draw ∧ out.outside = n0.outside := by
  unfold copyPixels forLoop at h
  refine foldlM_preserves _ (fun (n : Image) => n.draw = n0.draw ∧ n.outside = n0.outside)
    ?_ _ n0 out ⟨rfl, rfl⟩ h
  intro n r n' hn hstep
  simp only [Option.bind_eq_bind, Option.bind_eq_some] at hstep
  obtain ⟨st, hst, hpure⟩ := hstep
  cases hpure
  refine foldlM_preserves _
    (fun (st : Image × Nat) => st.1.draw = n0.draw ∧ st.1.outside = n0.outside)
    ?_ _ (n, 0) st hn hst
  intro st1 oldx st2 hq hbody
  simp only [Option.bind_eq_bind, Option.bind_eq_some] at hbody
  obtain ⟨sv, _, hp⟩ := hbody
  cases hp
  exact ⟨by rw [Set_draw]; exact hq.1, by rw [Set_outside]; exact hq.2⟩

/-! ## Seam removal and the resize loops -/

theorem removeSeamV_spec (img : Image) (hW : 3 ≤ img.w) (hH : 1 ≤ img.h) :
    ∃ e cum seam out, energy img = some e ∧ getCumMinEnergy e = some cum ∧
      getSeamV cum = some seam ∧ removeSeamV img = some out ∧
      e.Dim img.h img.w ∧ cum.Dim img.h img.w ∧
      seam.length = img.h ∧ (∀ s ∈ seam, s < img.w) ∧
      out.WF ∧ out.w = img.w - 1 ∧ out.h = img.h ∧
      ∀ r, r < img.h → ∀ x, x < img.w - 1 →
        out.At x r = if x < seam.getD r 0 then rgbaModelConvert (img.At x r)
          else rgbaModelConvert (img.At (x + 1) r) := by
  obtain ⟨e, he, hed, _⟩ := energy_total img
  obtain ⟨cum, hc, hcd⟩ := getCumMinEnergy_total e img.h img.w hed hH hW
  obtain ⟨seam, hs, hlen, hbound⟩ := getSeamV_spec cum img.h img.w hcd hH hW
  obtain ⟨out, ho, hwf, hw, hh, hrows⟩ := copyPixels_spec img seam (img.w - 1) img.h hlen
  refine ⟨e, cum, seam, out, he, hc, hs, ?_, hed, hcd, hlen, hbound, hwf, hw, hh, hrows⟩
  unfold removeSeamV
  simp only [he, hc, hs, Option.bind_eq_bind, Option.some_bind]
  exact ho

theorem removeSeamV_dims (img : Image) (hW : 3 ≤ img.w) (hH : 1 ≤ img.h) :
    ∃ out, removeSeamV img = some out ∧ out.WF ∧ out.w = img.w - 1 ∧ out.h = img.h := by
  obtain ⟨_, _, _, out, _, _, _, ho, _, _, _, _, hwf, hw, hh, _⟩ := removeSeamV_spec img hW hH
  exact ⟨out, ho, hwf, hw, hh⟩

theorem removeSeamV_kind (img out : Image) (h : removeSeamV img = some out) :
    out.draw = true ∧ out.outside = Color.zero := by
  unfold removeSeamV at h
  simp only [Option.bind_eq_bind, Option.bind_eq_some] at h
  obtain ⟨_, _, _, _, _, _, hcopy⟩ := h
  exact copyPixels_kind img _ _ _ _ out hcopy

theorem assertDraw_of_draw (img : Image) (h : img.draw = true) : assertDraw img = some img := by
  unfold assertDraw
  rw [if_pos h]

theorem removeSeamH_dims (img : Image) (hW : 1 ≤ img.w) (hH : 3 ≤ img.h) :
    ∃ out, removeSeamH img = some out ∧ out.WF ∧ out.w = img.w ∧ out.h = img.h - 1 := by
  obtain ⟨_, tw, th, _⟩ := transposeImage_spec img
  obtain ⟨mid, hmid, _, mw, mh⟩ := removeSeamV_dims (transposeImage img)
    (by rw [tw]; exact hH) (by rw [th]; exact hW)
  obtain ⟨owf, ow, oh, _⟩ := transposeImage_spec mid
  refine ⟨transposeImage mid, ?_, owf, by rw [ow, mh, th], by rw [oh, mw, tw]⟩
  unfold removeSeamH
  simp only [hmid, assertDraw_of_draw mid (removeSeamV_kind _ mid hmid).1, Option.bind_eq_bind,
    Option.some_bind]
  rfl

theorem removeSeamH_kind (img out : Image) (h : removeSeamH img = some out) :
    out.draw = true ∧ out.outside = Color.zero := by
  unfold removeSeamH at h
  simp only [Option.bind_eq_bind, Option.bind_eq_some] at h
  obtain ⟨_, _, mid, _, hp⟩ := h
  cases hp
  exact transposeImage_kind mid

theorem transposeImage_isRGBA (img : Image) : (transposeImage img).IsRGBA := by
  obtain ⟨twf, tw, th, tat⟩ := transposeImage_spec img
  obtain ⟨td, tout⟩ := transposeImage_kind img
  refine ⟨twf, td, tout, ?_⟩
  intro y hy x hx
  rw [tw] at hx
  rw [th] at hy
  rw [tat x y hx hy, rgbaModelConvert_idem]

theorem removeSeamV_isRGBA (img out : Image) (hW : 3 ≤ img.w) (hH : 1 ≤ img.h)
    (h : removeSeamV img = some out) : out.IsRGBA := by
  obtain ⟨_, _, _, out2, _, _, _, ho, _, _, _, _, owf, ow, oh, hrows⟩ :=
    removeSeamV_spec img hW hH
  have hsame : out2 = out := by rw [ho] at h; exact Option.some.inj h
  subst hsame
  obtain ⟨od, oout⟩ := removeSeamV_kind img out2 ho
  refine ⟨owf, od, oout, ?_⟩
  intro y hy x hx
  rw [ow] at hx
  rw [oh] at hy
  rw [hrows y hy x hx]
  split <;> rw [rgbaModelConvert_idem]

theorem alternating_step (k : Nat) :
    (List.replicate k [Axis.H, Axis.V]).flatten ++ [Axis.H] ++ [Axis.V] =
      (List.replicate (k + 1) [Axis.H, Axis.V]).flatten := by
  rw [List.replicate_succ', List.flatten_append]
  simp

theorem foldlM_eq_foldl {σ α : Type} (f : σ → α → Option σ) (g : σ → α → σ) (P : σ → Prop)
    (l : List α) :
    ∀ (s0 : σ), P s0 →
    (∀ k (hk : k < l.length) s, P s → f s l[k] = some (g s l[k]) ∧ P (g s l[k])) →
    l.foldlM f s0 = some (l.foldl g s0) ∧ P (l.foldl g s0) := by
  induction l with
  | nil => intro s0 h0 _; exact ⟨rfl, h0⟩
  | cons a l ih =>
    intro s0 h0 hstep
    have h1 := hstep 0 (by simp) s0 h0
    simp only [List.getElem_cons_zero] at h1
    have h2 := ih (g s0 a) h1.2 (by
      intro k hk s hs
      have := hstep (k + 1) (by simpa using hk) s hs
      simpa using this)
    simp [List.foldlM, h1.1, h2.1, h2.2]

theorem forLoop_eq_forPure {σ : Type} (lo hi : Nat) (body : σ → Nat → Option σ)
    (pbody : σ → Nat → σ) (P : σ → Prop) (s0 : σ) (h0 : P s0)
    (hstep : ∀ i s, lo ≤ i → i < hi → P s → body s i = some (pbody s i) ∧ P (pbody s i)) :
    forLoop lo hi body s0 = some (forPure lo hi pbody s0) ∧ P (forPure lo hi pbody s0) := by
  unfold forLoop forPure
  apply foldlM_eq_foldl body pbody P _ s0 h0
  intro k hk s hs
  simp only [List.length_range'] at hk
  have := hstep (lo + k) s (by omega) (by omega) hs
  simpa [List.getElem_range'] using this

theorem transposeImageChecked_eq (img : Image) :
    transposeImageChecked img = some (transposeImage img) := by
  unfold transposeImageChecked transposeImage
  refine (forLoop_eq_forPure 0 img.h _ _ (fun (n : Image) => n.w = img.h ∧ n.h = img.w)
    (NewRGBA img.h img.w) ⟨rfl, rfl⟩ ?_).1
  intro c n _ hc hn
  refine forLoop_eq_forPure 0 img.w _ _ (fun (n : Image) => n.w = img.h ∧ n.h = img.w) n hn ?_
  intro r m _ hr hm
  have h1 : r < img.w ∧ c < img.h := ⟨hr, hc⟩
  have h2 : c < m.w ∧ r < m.h := ⟨by rw [hm.1]; exact hc, by rw [hm.2]; exact hr⟩
  refine ⟨?_, by rw [Set_w]; exact hm.1, by rw [Set_h]; exact hm.2⟩
  simp [Image.atChecked, Image.setChecked, h1, h2]

theorem transposeImage_twice (img : Image) (hrgba : img.IsRGBA) :
    transposeImage (transposeImage img) = img := by
  obtain ⟨hwf, hdr, hout, hfix⟩ := hrgba
  obtain ⟨_, tw, th, tat⟩ := transposeImage_spec img
  obtain ⟨uwf, uw, uh, uat⟩ := transposeImage_spec (transposeImage img)
  obtain ⟨ud, uout⟩ := transposeImage_kind (transposeImage img)
  apply Image.ext_At _ _ uwf hwf (by rw [uw, th]) (by rw [uh, tw]) (by rw [ud, hdr])
    (by rw [uout, hout])
  intro x y hx hy
  rw [uw, th] at hx
  rw [uh, tw] at hy
  rw [uat x y (by rw [th]; exact hx) (by rw [tw]; exact hy), tat y x hy hx,
    rgbaModelConvert_idem, hfix y hy x hx]

/-! ## The border of the energy map -/

theorem energy_border (img : Image) :
    ∃ e, energy img = some e ∧ e.Dim img.h img.w ∧
      ∀ r c, (c = 0 ∨ r = 0 ∨ c = img.w - 1 ∨ r = img.h - 1) → e.val r c = 0 := by
  unfold energy
  refine forLoop_const 0 img.w _ (fun (e : Grid) => e.Dim img.h img.w ∧
    ∀ r c, (c = 0 ∨ r = 0 ∨ c = img.w - 1 ∨ r = img.h - 1) → e.val r c = 0) _ ?_ ?_
  · exact ⟨makeGrid_Dim _ _, fun r c _ => makeGrid_val _ _ r c⟩
  · intro c e _ hc he
    refine forLoop_const 0 img.h _ (fun (e : Grid) => e.Dim img.h img.w ∧
      ∀ r c, (c = 0 ∨ r = 0 ∨ c = img.w - 1 ∨ r = img.h - 1) → e.val r c = 0) e he ?_
    intro r e _ hr he
    obtain ⟨hd, hz⟩ := he
    split
    · obtain ⟨g, h1, h2, h3⟩ := set2_spec e img.h img.w r c 0 hd hr hc
      refine ⟨g, h1, h2, ?_⟩
      intro r' c' hb
      rw [h3]; split
      · rfl
      · exact hz r' c' hb
    · rename_i hnb
      obtain ⟨dx, hx, _⟩ := sobelX_eq (img.At (c - 1) (r - 1)) (img.At (c - 1) r)
        (img.At (c - 1) (r + 1)) (img.At (c + 1) (r - 1)) (img.At (c + 1) r)
        (img.At (c + 1) (r + 1))
      obtain ⟨dy, hy, _⟩ := sobelY_eq (img.At (c - 1) (r - 1)) (img.At c (r - 1))
        (img.At (c + 1) (r - 1)) (img.At (c - 1) (r + 1)) (img.At c (r + 1))
        (img.At (c + 1) (r + 1))
      obtain ⟨g, h1, h2, h3⟩ := set2_spec e img.h img.w r c (dx + dy) hd hr hc
      refine ⟨g, ?_, h2, ?_⟩
      · simp only [hx, hy, Option.bind_eq_bind, Option.some_bind]
        exact h1
      · intro r' c' hb
        rw [h3]; split
        · rename_i heq
          obtain ⟨rfl, rfl⟩ := heq
          exact absurd hb hnb
        · exact hz r' c' hb

/-! ## Values of the cumulative map -/

theorem cumValue_row0 (e : Grid) (W c : Nat) : cumValue e W 0 c = 0 := by
  simp only [cumValue]

theorem cumValue_edge (e : Grid) (W r c : Nat) (h : c = 0 ∨ W ≤ c + 1) :
    cumValue e W r c = 0 := by
  cases r with
  | zero => exact cumValue_row0 e W c
  | succ k => simp only [cumValue]; rw [if_pos h]

theorem cumValue_right (e : Grid) (W k : Nat) (hW : 3 ≤ W) :
    cumValue e W (k + 1) (W - 2) =
      e.val (k + 1) (W - 2) + min (cumValue e W k (W - 2)) (cumValue e W k (W - 3)) := by
  simp only [cumValue]
  rw [if_neg (by omega), if_pos trivial]

theorem cumValue_left (e : Grid) (W k : Nat) (hW : 4 ≤ W) :
    cumValue e W (k + 1) 1 =
      e.val (k + 1) 1 + min (cumValue e W k 1) (cumValue e W k 2) := by
  simp only [cumValue]
  rw [if_neg (by omega), if_neg (by omega), if_pos trivial]

theorem cumValue_mid (e : Grid) (W k c : Nat) (h2 : 2 ≤ c) (hc : c + 3 ≤ W) :
    cumValue e W (k + 1) c =
      e.val (k + 1) c + min (cumValue e W k (c - 1))
        (min (cumValue e W k c) (cumValue e W k (c + 1))) := by
  simp only [cumValue]
  rw [if_neg (by omega), if_neg (by omega), if_neg (by omega)]

theorem cumRow_val (e g : Grid) (H W k : Nat) (hd : e.Dim H W) (hW : 3 ≤ W) (hk : k + 1 < H)
    (hg : g.Dim H W)
    (hval : ∀ r c, g.val r c = if r < k + 1 then cumValue e W r c else 0) :
    ∃ g', ((assignMin2 e g (k + 1) 1 1 2).bind fun g1 =>
        (assignMin2 e g1 (k + 1) (W - 2) (W - 2) (W - 3)).bind fun g2 =>
          forLoop 2 (W - 2) (fun g3 c => assignMin3 e g3 (k + 1) c) g2) = some g' ∧
      g'.Dim H W ∧
      ∀ r c, g'.val r c = if r < k + 1 + 1 then cumValue e W r c else 0 := by
  obtain ⟨g1, k1, hg1, hv1⟩ := assignMin2_spec e g H W (k + 1) 1 1 2 hd hg (by omega) hk
    (by omega) (by omega) (by omega)
  obtain ⟨g2, k2, hg2, hv2⟩ := assignMin2_spec e g1 H W (k + 1) (W - 2) (W - 2) (W - 3) hd hg1
    (by omega) hk (by omega) (by omega) (by omega)
  have hprev : ∀ c, g.val k c = cumValue e W k c := by
    intro c; rw [hval k c, if_pos (by omega)]
  have hprev1 : ∀ c, g1.val k c = cumValue e W k c := by
    intro c; rw [hv1 k c, if_neg (by omega)]; exact hprev c
  have hprev2 : ∀ c, g2.val k c = cumValue e W k c := by
    intro c; rw [hv2 k c, if_neg (by omega)]; exact hprev1 c
  simp only [Nat.add_sub_cancel] at hv1 hv2
  -- the inner loop over the columns 2 .. W-3
  have inner : ∃ g', forLoop 2 (W - 2) (fun g3 c => assignMin3 e g3 (k + 1) c) g2 = some g' ∧
      g'.Dim H W ∧
      ∀ r c, g'.val r c =
        if r = k + 1 ∧ 2 ≤ c ∧ c + 3 ≤ W then cumValue e W (k + 1) c else g2.val r c := by
    by_cases hle : 2 ≤ W - 2
    · obtain ⟨g', h1, h2, h3, h4⟩ := forLoop_inv 2 (W - 2)
        (fun g3 c => assignMin3 e g3 (k + 1) c)
        (fun j (g3 : Grid) => g3.Dim H W ∧ (∀ c, g3.val k c = cumValue e W k c) ∧
          ∀ r c, g3.val r c =
            if r = k + 1 ∧ 2 ≤ c ∧ c < j then cumValue e W (k + 1) c else g2.val r c)
        g2 hle
        ⟨hg2, hprev2, (by
          intro r c
          rw [if_neg (show ¬ (r = k + 1 ∧ 2 ≤ c ∧ c < 2) by omega)])⟩
        (by
          intro c g3 hc2 hc hI
          obtain ⟨hd3, hp3, hv3⟩ := hI
          obtain ⟨g4, k4, hg4, hv4⟩ := assignMin3_spec e g3 H W (k + 1) c hd hd3 (by omega) hk
            (by omega) (by omega)
          simp only [Nat.add_sub_cancel] at hv4
          refine ⟨g4, k4, hg4, ?_, ?_⟩
          · intro c'
            rw [hv4 k c', if_neg (show ¬ (k = k + 1 ∧ c' = c) by omega)]
            exact hp3 c'
          · intro r c'
            rw [hv4 r c']
            by_cases h : r = k + 1 ∧ c' = c
            · obtain ⟨rfl, rfl⟩ := h
              rw [if_pos ⟨rfl, rfl⟩,
                if_pos (show k + 1 = k + 1 ∧ 2 ≤ c' ∧ c' < c' + 1 from ⟨rfl, hc2, by omega⟩),
                hp3, hp3, hp3, cumValue_mid e W k c' hc2 (by omega)]
            · rw [if_neg h, hv3 r c']
              by_cases h' : r = k + 1 ∧ 2 ≤ c' ∧ c' < c
              · rw [if_pos h', if_pos (show r = k + 1 ∧ 2 ≤ c' ∧ c' < c + 1 by omega)]
              · rw [if_neg h', if_neg (show ¬ (r = k + 1 ∧ 2 ≤ c' ∧ c' < c + 1) by omega)])
      refine ⟨g', h1, h2, ?_⟩
      intro r c
      rw [h4 r c]
      by_cases h : r = k + 1 ∧ 2 ≤ c ∧ c < W - 2
      · rw [if_pos h, if_pos (show r = k + 1 ∧ 2 ≤ c ∧ c + 3 ≤ W by omega)]
      · rw [if_neg h, if_neg (show ¬ (r = k + 1 ∧ 2 ≤ c ∧ c + 3 ≤ W) by omega)]
    · refine ⟨g2, forLoop_empty 2 (W - 2) _ g2 (by omega), hg2, ?_⟩
      intro r c
      rw [if_neg (show ¬ (r = k + 1 ∧ 2 ≤ c ∧ c + 3 ≤ W) by omega)]
  obtain ⟨g', h1, h2, h4⟩ := inner
  refine ⟨g', ?_, h2, ?_⟩
  · simp only [k1, k2, Option.some_bind]
    exact h1
  · intro r c
    by_cases hr : r = k + 1
    · subst hr
      rw [if_pos (show k + 1 < k + 1 + 1 by omega), h4 (k + 1) c]
      by_cases hmid : 2 ≤ c ∧ c + 3 ≤ W
      · rw [if_pos ⟨rfl, hmid⟩]
      · rw [if_neg (show ¬ (k + 1 = k + 1 ∧ 2 ≤ c ∧ c + 3 ≤ W) from fun h => hmid h.2),
          hv2 (k + 1) c]
        by_cases hr2 : c = W - 2
        · subst hr2
          rw [if_pos ⟨rfl, rfl⟩, hprev1, hprev1, cumValue_right e W k hW]
        · rw [if_neg (show ¬ (k + 1 = k + 1 ∧ c = W - 2) from fun h => hr2 h.2),
            hv1 (k + 1) c]
          by_cases hl : c = 1
          · subst hl
            rw [if_pos ⟨rfl, rfl⟩, hprev, hprev, cumValue_left e W k (by omega)]
          · rw [if_neg (show ¬ (k + 1 = k + 1 ∧ c = 1) from fun h => hl h.2),
              hval (k + 1) c, if_neg (show ¬ (k + 1 < k + 1) by omega),
              cumValue_edge e W (k + 1) c (by omega)]
    · rw [h4 r c, if_neg (show ¬ (r = k + 1 ∧ 2 ≤ c ∧ c + 3 ≤ W) from fun h => hr h.1),
        hv2 r c, if_neg (show ¬ (r = k + 1 ∧ c = W - 2) from fun h => hr h.1),
        hv1 r c, if_neg (show ¬ (r = k + 1 ∧ c = 1) from fun h => hr h.1), hval r c]
      by_cases hlt : r < k + 1
      · rw [if_pos hlt, if_pos (show r < k + 1 + 1 by omega)]
      · rw [if_neg hlt, if_neg (show ¬ (r < k + 1 + 1) by omega)]

theorem getCumMinEnergy_val (e : Grid) (H W : Nat) (hd : e.Dim H W) (hH : 1 ≤ H)
    (hW : 3 ≤ W) :
    ∃ cum, getCumMinEnergy e = some cum ∧ cum.Dim H W ∧
      ∀ r c, r < H → cum.val r c = cumValue e W r c := by
  obtain ⟨row0, h0, hlen⟩ := row0_spec e H W hd hH
  unfold getCumMinEnergy
  simp only [h0, hlen, hd.1, Option.bind_eq_bind, Option.some_bind]
  obtain ⟨cum, h1, h2, h3⟩ := forLoop_inv 1 H
    (fun g r => (assignMin2 e g r 1 1 2).bind fun g1 =>
      (assignMin2 e g1 r (W - 2) (W - 2) (W - 3)).bind fun g2 =>
        forLoop 2 (W - 2) (fun g3 c => assignMin3 e g3 r c) g2)
    (fun j (g : Grid) => g.Dim H W ∧ ∀ r c, g.val r c = if r < j then cumValue e W r c else 0)
    (makeGrid H W) hH
    ⟨makeGrid_Dim _ _, (by
      intro r c
      rw [makeGrid_val]
      by_cases hr : r < 1
      · have : r = 0 := by omega
        subst this
        rw [if_pos hr, cumValue_row0]
      · rw [if_neg hr])⟩
    (by
      intro r g hr1 hr hI
      obtain ⟨hg, hval⟩ := hI
      obtain ⟨k, rfl⟩ : ∃ k, r = k + 1 := ⟨r - 1, by omega⟩
      exact cumRow_val e g H W k hd hW hr hg hval)
  refine ⟨cum, h1, h2, ?_⟩
  intro r c hr
  rw [h3 r c, if_pos hr]

theorem list_set_self {α : Type} (l : List α) (i : Nat) (h : i < l.length) :
    l.set i l[i] = l := by
  apply List.ext_getElem?
  intro j
  rw [List.getElem?_set]
  split
  · rename_i hij
    subst hij
    simp [h]
  · rfl

theorem set2_same (g : Grid) (H W r c : Nat) (hd : g.Dim H W) (hr : r < H) (hc : c < W) :
    g.set2 r c (g.val r c) = some g := by
  have hr' : r < g.length := by rw [hd.1]; exact hr
  have hrow : (g[r]).length = W := hd.2 _ (List.getElem_mem hr')
  have hc' : c < (g[r]).length := by rw [hrow]; exact hc
  have hv : g.val r c = (g[r])[c] := by
    simp [Grid.val, List.getD_eq_getElem?_getD, hr', hc']
  rw [hv]
  simp only [Grid.set2, List.getElem?_eq_getElem hr', hc', if_true]
  rw [list_set_self (g[r]) c hc', list_set_self g r hr']

theorem seeding_noop (e : Grid) (H W : Nat) (hd : e.Dim H W) (hH : 1 ≤ H)
    (hrow0 : ∀ c, c < W → e.val 0 c = 0) :
    forLoop 0 W (fun (cumMinEnergy : Grid) c => do
      let v ← e.get2 0 c
      cumMinEnergy.set2 0 c v) (makeGrid H W) = some (makeGrid H W) := by
  obtain ⟨g, h1, h2⟩ := forLoop_const 0 W (fun (cumMinEnergy : Grid) c => do
      let v ← e.get2 0 c
      cumMinEnergy.set2 0 c v) (fun g => g = makeGrid H W) (makeGrid H W) rfl (by
    intro c g _ hc hg
    subst hg
    refine ⟨makeGrid H W, ?_, rfl⟩
    simp only [get2_eq e H W 0 c hd (by omega) hc, hrow0 c hc, Option.bind_eq_bind,
      Option.some_bind]
    have := set2_same (makeGrid H W) H W 0 c (makeGrid_Dim H W) (by omega) hc
    rwa [makeGrid_val] at this)
  rw [h1, h2]

theorem getCumMinEnergySeeded_eq (e : Grid) (H W : Nat) (hd : e.Dim H W)
    (hrow0 : ∀ c, c < W → e.val 0 c = 0) :
    getCumMinEnergySeeded e = getCumMinEnergy e := by
  by_cases hH : 1 ≤ H
  · obtain ⟨row0, h0, hlen⟩ := row0_spec e H W hd hH
    have hs := seeding_noop e H W hd hH hrow0
    simp only [Option.bind_eq_bind] at hs
    unfold getCumMinEnergySeeded getCumMinEnergy
    simp only [h0, hlen, hd.1, Option.bind_eq_bind, Option.some_bind, hs]
  · have h0 : e[0]? = none := by
      apply List.getElem?_eq_none
      rw [hd.1]; omega
    unfold getCumMinEnergySeeded getCumMinEnergy
    simp only [h0, Option.bind_eq_bind, Option.none_bind]

/-! ## Paths and the least path energy -/

theorem getD_append_left (p : List Nat) (c i : Nat) (hi : i < p.length) :
    (p ++ [c]).getD i 0 = p.getD i 0 := by
  simp [List.getD_eq_getElem?_getD, List.getElem?_append_left hi]

theorem getD_append_length (p : List Nat) (c : Nat) : (p ++ [c]).getD p.length 0 = c := by
  simp [List.getD_eq_getElem?_getD]

theorem seamEnergy_append (e : Grid) (p : List Nat) (c : Nat) :
    seamEnergy e (p ++ [c]) = seamEnergy e p + e.val p.length c := by
  unfold seamEnergy
  rw [List.length_append, List.length_singleton, List.range_succ, List.map_append,
    List.sum_append, List.map_singleton, List.sum_singleton, getD_append_length]
  congr 2
  apply List.map_congr_left
  intro i hi
  rw [getD_append_left p c i (List.mem_range.mp hi)]

theorem seamEnergy_singleton (e : Grid) (c : Nat) : seamEnergy e [c] = e.val 0 c := by
  have h := seamEnergy_append e [] c
  have h0 : seamEnergy e [] = 0 := rfl
  rw [h0, Int.zero_add] at h
  exact h

theorem interiorSeam_append (W n : Nat) (p : List Nat) (c : Nat) (hp : InteriorSeam W n p)
    (hc1 : 1 ≤ c) (hc2 : c + 2 ≤ W)
    (hadj : n = 0 ∨ (p.getD (n - 1) 0 ≤ c + 1 ∧ c ≤ p.getD (n - 1) 0 + 1)) :
    InteriorSeam W (n + 1) (p ++ [c]) := by
  obtain ⟨hlen, hin, hstep⟩ := hp
  refine ⟨by simp [hlen], ?_, ?_⟩
  · intro x hx
    rcases List.mem_append.mp hx with h | h
    · exact hin x h
    · simp only [List.mem_singleton] at h; subst h; exact ⟨hc1, hc2⟩
  · intro r hr
    simp only [Nat.add_sub_cancel] at hr
    by_cases hlast : r + 1 = n
    · have e1 : (p ++ [c]).getD (r + 1) 0 = c := by
        rw [hlast, ← hlen]; exact getD_append_length p c
      rw [e1, getD_append_left p c r (by omega)]
      rcases hadj with h | h
      · omega
      · have : n - 1 = r := by omega
        rw [this] at h
        exact h
    · rw [getD_append_left p c r (by omega), getD_append_left p c (r + 1) (by omega)]
      exact hstep r (by omega)

theorem interiorSeam_split (W n : Nat) (p : List Nat) (hp : InteriorSeam W (n + 1) p) :
    ∃ q c, p = q ++ [c] ∧ InteriorSeam W n q ∧ c = p.getD n 0 ∧ 1 ≤ c ∧ c + 2 ≤ W ∧
      (n = 0 ∨ (q.getD (n - 1) 0 ≤ c + 1 ∧ c ≤ q.getD (n - 1) 0 + 1)) := by
  obtain ⟨hlen, hin, hstep⟩ := hp
  have hne : p ≠ [] := by
    intro h; rw [h] at hlen; simp at hlen
  obtain ⟨q, c, rfl⟩ : ∃ q c, p = q ++ [c] :=
    ⟨p.dropLast, p.getLast hne, (List.dropLast_append_getLast hne).symm⟩
  have hq : q.length = n := by simpa using hlen
  have hcin := hin c (by simp)
  refine ⟨q, c, rfl, ⟨hq, fun x hx => hin x (List.mem_append_left _ hx), ?_⟩, ?_, hcin.1,
    hcin.2, ?_⟩
  · intro r hr
    have := hstep r (by omega)
    rwa [getD_append_left q c r (by omega), getD_append_left q c (r + 1) (by omega)] at this
  · rw [← hq]; exact (getD_append_length q c).symm
  · by_cases h0 : n = 0
    · exact Or.inl h0
    · right
      have := hstep (n - 1) (by omega)
      have e1 : n - 1 + 1 = q.length := by omega
      rwa [getD_append_left q c (n - 1) (by omega), e1, getD_append_length] at this

/-- Every allowed predecessor bounds the cumulative value from above, and one attains it. -/
theorem cumValue_step (e : Grid) (W k c : Nat) (hW : 4 ≤ W) (hc1 : 1 ≤ c) (hc2 : c + 2 ≤ W) :
    (∀ d, 1 ≤ d → d + 2 ≤ W → d ≤ c + 1 → c ≤ d + 1 →
      cumValue e W (k + 1) c ≤ e.val (k + 1) c + cumValue e W k d) ∧
    ∃ d, 1 ≤ d ∧ d + 2 ≤ W ∧ d ≤ c + 1 ∧ c ≤ d + 1 ∧
      cumValue e W (k + 1) c = e.val (k + 1) c + cumValue e W k d := by
  by_cases hr : c = W - 2
  · subst hr
    rw [cumValue_right e W k (by omega)]
    constructor
    · intro d hd1 hd2 hd3 hd4
      have : d = W - 2 ∨ d = W - 3 := by omega
      rcases this with rfl | rfl <;> omega
    · rcases min_choice (cumValue e W k (W - 2)) (cumValue e W k (W - 3)) with h | h
      · exact ⟨W - 2, by omega, by omega, by omega, by omega, by rw [h]⟩
      · exact ⟨W - 3, by omega, by omega, by omega, by omega, by rw [h]⟩
  · by_cases hl : c = 1
    · subst hl
      rw [cumValue_left e W k hW]
      constructor
      · intro d hd1 hd2 hd3 hd4
        have : d = 1 ∨ d = 2 := by omega
        rcases this with rfl | rfl <;> omega
      · rcases min_choice (cumValue e W k 1) (cumValue e W k 2) with h | h
        · exact ⟨1, by omega, by omega, by omega, by omega, by rw [h]⟩
        · exact ⟨2, by omega, by omega, by omega, by omega, by rw [h]⟩
    · rw [cumValue_mid e W k c (by omega) (by omega)]
      constructor
      · intro d hd1 hd2 hd3 hd4
        have : d = c - 1 ∨ d = c ∨ d = c + 1 := by omega
        rcases this with rfl | rfl | rfl <;> omega
      · rcases min_choice (cumValue e W k (c - 1))
          (min (cumValue e W k c) (cumValue e W k (c + 1))) with h | h
        · exact ⟨c - 1, by omega, by omega, by omega, by omega, by rw [h]⟩
        · rcases min_choice (cumValue e W k c) (cumValue e W k (c + 1)) with h' | h'
          · exact ⟨c, by omega, by omega, by omega, by omega, by rw [h, h']⟩
          · exact ⟨c + 1, by omega, by omega, by omega, by omega, by rw [h, h']⟩

theorem cumValue_le_path (e : Grid) (W : Nat) (hW : 4 ≤ W)
    (hrow0 : ∀ c, c < W → e.val 0 c = 0) :
    ∀ r p, InteriorSeam W (r + 1) p → cumValue e W r (p.getD r 0) ≤ seamEnergy e p := by
  intro r
  induction r with
  | zero =>
    intro p hp
    obtain ⟨q, c, rfl, hq, hc, hc1, hc2, _⟩ := interiorSeam_split W 0 p hp
    have hq0 : q = [] := List.length_eq_zero.mp hq.1
    subst hq0
    rw [cumValue_row0]
    show 0 ≤ seamEnergy e [c]
    rw [seamEnergy_singleton, hrow0 c (by omega)]
  | succ k ih =>
    intro p hp
    obtain ⟨q, c, rfl, hq, hc, hc1, hc2, hadj⟩ := interiorSeam_split W (k + 1) p hp
    rw [← hc, seamEnergy_append, hq.1]
    have hd := hq.2.1 (q.getD k 0) (by
      rw [List.getD_eq_getElem?_getD, List.getElem?_eq_getElem (by rw [hq.1]; omega),
        Option.getD_some]
      exact List.getElem_mem _)
    rcases hadj with h | h
    · omega
    · simp only [Nat.add_sub_cancel] at h
      have h1 := (cumValue_step e W k c hW hc1 hc2).1 (q.getD k 0) hd.1 hd.2 h.1 h.2
      have h2 := ih q hq
      omega

theorem cumValue_attained (e : Grid) (W : Nat) (hW : 4 ≤ W)
    (hrow0 : ∀ c, c < W → e.val 0 c = 0) :
    ∀ r c, 1 ≤ c → c + 2 ≤ W →
      ∃ p, InteriorSeam W (r + 1) p ∧ p.getD r 0 = c ∧ seamEnergy e p = cumValue e W r c := by
  intro r
  induction r with
  | zero =>
    intro c hc1 hc2
    refine ⟨[c], ⟨rfl, ?_, ?_⟩, rfl, ?_⟩
    · intro x hx; simp only [List.mem_singleton] at hx; subst hx; exact ⟨hc1, hc2⟩
    · intro r hr; omega
    · rw [cumValue_row0, seamEnergy_singleton, hrow0 c (by omega)]
  | succ k ih =>
    intro c hc1 hc2
    obtain ⟨d, hd1, hd2, hd3, hd4, hval⟩ := (cumValue_step e W k c hW hc1 hc2).2
    obtain ⟨q, hq, hqd, hqe⟩ := ih d hd1 hd2
    refine ⟨q ++ [c], interiorSeam_append W (k + 1) q c hq hc1 hc2 (Or.inr ?_), ?_, ?_⟩
    · simp only [Nat.add_sub_cancel]; rw [hqd]; exact ⟨hd3, hd4⟩
    · rw [← hq.1]; exact getD_append_length q c
    · rw [seamEnergy_append, hq.1, hqe, hval]; omega

/-! ## The seam, step by step -/

theorem getD_set (l : List Nat) (i j v : Nat) (hi : i < l.length) :
    (l.set i v).getD j 0 = if j = i then v else l.getD j 0 := by
  simp only [List.getD_eq_getElem?_getD, List.getElem?_set]
  by_cases h : i = j
  · subst h; simp [hi]
  · rw [if_neg h, if_neg (fun e => h e.symm)]

theorem stepCol_bounds (cum : Grid) (W m i : Nat) (hW : 3 ≤ W) (hm1 : 1 ≤ m) (hm2 : m ≤ W - 1) :
    1 ≤ stepCol cum W m i ∧ stepCol cum W m i ≤ W - 1 ∧
      stepCol cum W m i ≤ m + 1 ∧ m ≤ stepCol cum W m i + 1 := by
  unfold stepCol
  split_ifs <;> omega

theorem seamStep_val (cum : Grid) (H W : Nat) (hd : cum.Dim H W) (hW : 3 ≤ W)
    (m : Nat) (seam : List Nat) (i : Nat) (hi : i < H) (hlen : seam.length = H)
    (hm1 : 1 ≤ m) (hm2 : m ≤ W - 1) :
    seamStep cum W (m, seam) i = some (stepCol cum W m i, seam.set i (stepCol cum W m i)) := by
  have hi' : i < seam.length := by rw [hlen]; exact hi
  unfold seamStep stepCol
  simp only
  by_cases h1 : m = 1
  · subst h1
    simp only [if_true, lt_eq cum H W i 1 i (1 + 1) hd hi (by omega) hi (by omega),
      Option.bind_eq_bind, Option.some_bind, setIdx_eq seam i _ hi']
    by_cases hc : cum.val i 1 < cum.val i (1 + 1)
    · simp only [hc, decide_True, if_true]; rfl
    · simp only [hc, decide_False, if_false, Bool.false_eq_true]; rfl
  · rw [if_neg h1, if_neg h1]
    by_cases h2 : m = W - 1
    · rw [if_pos h2, if_pos h2]
      simp only [lt_eq cum H W i m i (m - 1) hd hi (by omega) hi (by omega),
        Option.bind_eq_bind, Option.some_bind, setIdx_eq seam i _ hi']
      by_cases hc : cum.val i m < cum.val i (m - 1)
      · simp only [hc, decide_True, if_true]; rfl
      · simp only [hc, decide_False, if_false, Bool.false_eq_true]; rfl
    · rw [if_neg h2, if_neg h2]
      simp only [lt_eq cum H W i (m - 1) i m hd hi (by omega) hi (by omega),
        lt_eq cum H W i (m - 1) i (m + 1) hd hi (by omega) hi (by omega),
        lt_eq cum H W i (m + 1) i m hd hi (by omega) hi (by omega),
        lt_eq cum H W i (m + 1) i (m - 1) hd hi (by omega) hi (by omega),
        Option.bind_eq_bind, setIdx_eq seam i _ hi']
      by_cases hA : cum.val i (m - 1) < cum.val i m <;>
      by_cases hB : cum.val i (m - 1) < cum.val i (m + 1) <;>
      by_cases hC : cum.val i (m + 1) < cum.val i m <;>
      by_cases hD : cum.val i (m + 1) < cum.val i (m - 1) <;>
      simp only [hA, hB, hC, hD, decide_True, decide_False, andAlso, Option.some_bind,
        Bool.false_eq_true, if_false, if_true, and_self, and_true, and_false, true_and,
        false_and, pure]

theorem getD_replicate_zero (n j : Nat) : (List.replicate n 0).getD j 0 = 0 := by
  simp only [List.getD_eq_getElem?_getD, List.getElem?_replicate]
  split <;> rfl

theorem getSeamV_full (cum : Grid) (H W : Nat) (hd : cum.Dim H W) (hH : 1 ≤ H) (hW : 3 ≤ W) :
    ∃ seam, getSeamV cum = some seam ∧ seam.length = H ∧
      (∀ r, 1 ≤ r → r < H → 1 ≤ seam.getD r 0 ∧ seam.getD r 0 ≤ W - 1) ∧
      (1 ≤ seam.getD (H - 1) 0 ∧ seam.getD (H - 1) 0 + 2 ≤ W) ∧
      (2 ≤ H → seam.getD 0 0 = 0) ∧
      (∀ i, 1 ≤ i → i + 1 < H →
        seam.getD i 0 = stepCol cum W (seam.getD (i + 1) 0) i) := by
  obtain ⟨row0, h0, hlen⟩ := row0_spec cum H W hd hH
  unfold getSeamV
  simp only [h0, hlen, hd.1, Option.bind_eq_bind, Option.some_bind]
  obtain ⟨m0, hscan, hm0⟩ := forLoop_const 1 (W - 3) (fun minIndex i => do
      let a ← cum.get2 (H - 1) i
      let b ← cum.get2 (H - 1) minIndex
      pure (if a ≤ b then i else minIndex)) (fun m => 1 ≤ m ∧ m ≤ W - 2) 1 ⟨le_refl _, by omega⟩
    (by
      intro i m hi1 hi hm
      simp only [get2_eq cum H W (H - 1) i hd (by omega) (by omega),
        get2_eq cum H W (H - 1) m hd (by omega) (by omega), Option.bind_eq_bind,
        Option.some_bind]
      refine ⟨_, rfl, ?_⟩
      split <;> omega)
  simp only [Option.bind_eq_bind] at hscan
  simp only [hscan, Option.some_bind,
    setIdx_eq (List.replicate H 0) (H - 1) m0 (by simp; omega)]
  have hset : ∀ j, ((List.replicate H 0).set (H - 1) m0).getD j 0 =
      if j = H - 1 then m0 else 0 := by
    intro j
    rw [getD_set _ _ _ _ (by simp; omega), getD_replicate_zero]
  obtain ⟨st, hst, hI⟩ := forDown_inv (H - 2) 0 (seamStep cum W)
    (fun i (st : Nat × List Nat) => st.2.length = H ∧ 1 ≤ st.1 ∧ st.1 ≤ W - 1 ∧
      (2 ≤ H → st.1 = st.2.getD (i + 1) 0) ∧ st.2.getD (H - 1) 0 = m0 ∧
      (∀ r, i < r → r < H → 1 ≤ st.2.getD r 0 ∧ st.2.getD r 0 ≤ W - 1) ∧
      (∀ r, r ≤ i → r + 1 < H → st.2.getD r 0 = 0) ∧
      (∀ j, i < j → j + 1 < H → st.2.getD j 0 = stepCol cum W (st.2.getD (j + 1) 0) j))
    (m0, (List.replicate H 0).set (H - 1) m0) (Nat.zero_le _)
    ⟨by simp, hm0.1, by have := hm0.2; simp only; omega,
      (by
        intro h2
        simp only
        rw [hset, if_pos (by omega)]),
      (by simp only; rw [hset, if_pos rfl]),
      (by
        intro r hr1 hr2
        simp only
        rw [hset, if_pos (by omega)]
        omega),
      (by
        intro r hr1 hr2
        simp only
        rw [hset, if_neg (by omega)]),
      (by intro j hj1 hj2; omega)⟩
    (by
      intro i st hi0 hi hI
      obtain ⟨m, seam⟩ := st
      obtain ⟨hl, hm1, hm2, hcur, hlast, hrows, hzero, hstep⟩ := hI
      simp only at hl hm1 hm2 hcur hlast hrows hzero hstep
      have hil : i < seam.length := by omega
      obtain ⟨b1, b2, _, _⟩ := stepCol_bounds cum W m i hW hm1 hm2
      refine ⟨_, seamStep_val cum H W hd hW m seam i (by omega) hl hm1 hm2, ?_⟩
      refine ⟨by simpa using hl, b1, b2, ?_, ?_, ?_, ?_, ?_⟩
      · intro _
        simp only
        rw [getD_set _ _ _ _ hil, if_pos (by omega)]
      · simp only
        rw [getD_set _ _ _ _ hil, if_neg (by omega)]
        exact hlast
      · intro r hr1 hr2
        simp only
        rw [getD_set _ _ _ _ hil]
        by_cases e : r = i
        · rw [if_pos e]; exact ⟨b1, b2⟩
        · rw [if_neg e]; exact hrows r (by omega) hr2
      · intro r hr1 hr2
        simp only
        rw [getD_set _ _ _ _ hil, if_neg (by omega)]
        exact hzero r (by omega) hr2
      · intro j hj1 hj2
        simp only
        rw [getD_set _ _ _ _ hil, getD_set _ _ _ _ hil]
        by_cases e : j = i
        · subst e
          rw [if_pos rfl, if_neg (by omega), ← hcur (by omega)]
        · rw [if_neg e, if_neg (by omega)]
          exact hstep j (by omega) hj2)
  obtain ⟨hl, hm1, hm2, hcur, hlast, hrows, hzero, hstep⟩ := hI
  refine ⟨st.2, ?_, hl, ?_, ?_, ?_, ?_⟩
  · simp only [hst, Option.some_bind]; rfl
  · intro r hr1 hr2; exact hrows r (by omega) hr2
  · rw [hlast]; have := hm0.2; omega
  · intro h2; exact hzero 0 (le_refl _) (by omega)
  · intro i hi1 hi2; exact hstep i (by omega) hi2

theorem removeSeamV_rows (img : Image) (hwf : img.WF) (hW : 3 ≤ img.w) (hH : 1 ≤ img.h) :
    ∃ e cum seam out, energy img = some e ∧ getCumMinEnergy e = some cum ∧
      getSeamV cum = some seam ∧ removeSeamV img = some out ∧
      e.Dim img.h img.w ∧ cum.Dim img.h img.w ∧
      out.WF ∧ out.w = img.w - 1 ∧ out.h = img.h ∧ seam.length = img.h ∧
      ∀ r, r < img.h → ∃ row, img.pix[r]? = some row ∧ row.length = img.w ∧
        seam[r]? = some (seam.getD r 0) ∧ seam.getD r 0 < img.w ∧
        out.pix[r]? = some ((row.eraseIdx (seam.getD r 0)).map rgbaModelConvert) := by
  obtain ⟨e, cum, seam, out, he, hc, hs, ho, hed, hcd, hlen, hbound, owf, ow, oh, hrows⟩ :=
    removeSeamV_spec img hW hH
  refine ⟨e, cum, seam, out, he, hc, hs, ho, hed, hcd, owf, ow, oh, hlen, ?_⟩
  intro r hr
  obtain ⟨row, h1, h2, h3⟩ := row_spec img hwf r hr
  obtain ⟨orow, k1, k2, k3⟩ := row_spec out owf r (by rw [oh]; exact hr)
  have hr' : r < seam.length := by rw [hlen]; exact hr
  have hsr : seam[r]? = some (seam.getD r 0) := by
    simp [List.getD_eq_getElem?_getD, hr']
  have hsW : seam.getD r 0 < img.w := by
    apply hbound
    rw [List.getD_eq_getElem?_getD, List.getElem?_eq_getElem hr', Option.getD_some]
    exact List.getElem_mem hr'
  refine ⟨row, h1, h2, hsr, hsW, ?_⟩
  rw [k1]
  congr 1
  apply List.ext_getElem?
  intro x
  rw [List.getElem?_map, List.getElem?_eraseIdx]
  by_cases hx : x < img.w - 1
  · rw [k3 x (by rw [ow]; exact hx), hrows r hr x hx]
    split
    · rw [h3 x (by omega)]; rfl
    · rw [h3 (x + 1) (by omega)]; rfl
  · rw [List.getElem?_eq_none (by omega)]
    split
    · omega
    · rw [List.getElem?_eq_none (by omega)]; rfl

theorem map_convert_fixed (l : List Color) (h : ∀ p ∈ l, rgbaModelConvert p = p) :
    l.map rgbaModelConvert = l :=
  calc l.map rgbaModelConvert = l.map id := List.map_congr_left (fun p hp => h p hp)
    _ = l := List.map_id l

/-! ## Uniform images and the resize loops -/

theorem uniformImage_WF (w h : Nat) (c : Color) : (uniformImage w h c).WF := by
  refine ⟨by simp [uniformImage], ?_⟩
  intro row hrow
  simp only [uniformImage] at hrow
  rw [List.eq_of_mem_replicate hrow]
  simp [uniformImage]

theorem uniformImage_At (w h : Nat) (c : Color) (x y : Nat) (hx : x < w) (hy : y < h) :
    (uniformImage w h c).At x y = c := by
  simp [Image.At, uniformImage, hx, hy, List.getD_eq_getElem?_getD, List.getElem?_replicate]

theorem eq_uniformImage (img : Image) (c : Color) (hwf : img.WF) (hdr : img.draw = true)
    (hout : img.outside = Color.zero)
    (h : ∀ x y, x < img.w → y < img.h → img.At x y = c) :
    img = uniformImage img.w img.h c := by
  apply Image.ext_At _ _ hwf (uniformImage_WF _ _ _) rfl rfl hdr hout
  intro x y hx hy
  rw [h x y hx hy, uniformImage_At _ _ _ _ _ hx hy]

theorem removeSeamV_uniform (img : Image) (c : Color) (hW : 3 ≤ img.w) (hH : 1 ≤ img.h)
    (huni : ∀ x y, x < img.w → y < img.h → img.At x y = c) :
    removeSeamV img = some (uniformImage (img.w - 1) img.h (rgbaModelConvert c)) := by
  obtain ⟨_, _, seam, out, _, _, _, ho, _, _, _, _, owf, ow, oh, hrows⟩ :=
    removeSeamV_spec img hW hH
  obtain ⟨od, oout⟩ := removeSeamV_kind img out ho
  rw [ho]
  congr 1
  have := eq_uniformImage out (rgbaModelConvert c) owf od oout (by
    intro x y hx hy
    rw [ow] at hx
    rw [oh] at hy
    rw [hrows y hy x hx]
    split
    · rw [huni x y (by omega) hy]
    · rw [huni (x + 1) y (by omega) hy])
  rw [this, ow, oh]

theorem transposeImage_uniform (img : Image) (c : Color)
    (huni : ∀ x y, x < img.w → y < img.h → img.At x y = c) :
    transposeImage img = uniformImage img.h img.w (rgbaModelConvert c) := by
  obtain ⟨twf, tw, th, tat⟩ := transposeImage_spec img
  obtain ⟨td, tout⟩ := transposeImage_kind img
  have := eq_uniformImage _ (rgbaModelConvert c) twf td tout (by
    intro x y hx hy
    rw [tw] at hx
    rw [th] at hy
    rw [tat x y hx hy, huni y x hy hx])
  rw [this, tw, th]

theorem removeSeamH_uniform (img : Image) (c : Color) (hW : 1 ≤ img.w) (hH : 3 ≤ img.h)
    (huni : ∀ x y, x < img.w → y < img.h → img.At x y = c) :
    removeSeamH img = some (uniformImage img.w (img.h - 1) (rgbaModelConvert c)) := by
  unfold removeSeamH
  rw [transposeImage_uniform img c huni]
  have h1 := removeSeamV_uniform (uniformImage img.h img.w (rgbaModelConvert c))
    (rgbaModelConvert c) hH hW (fun x y hx hy => uniformImage_At _ _ _ x y hx hy)
  rw [rgbaModelConvert_idem] at h1
  have h2 := transposeImage_uniform (uniformImage (img.h - 1) img.w (rgbaModelConvert c))
    (rgbaModelConvert c) (fun x y hx hy => uniformImage_At _ _ _ x y hx hy)
  rw [rgbaModelConvert_idem] at h2
  have e1 : (uniformImage img.h img.w (rgbaModelConvert c)).w = img.h := rfl
  have e2 : (uniformImage img.h img.w (rgbaModelConvert c)).h = img.w := rfl
  have e3 : (uniformImage (img.h - 1) img.w (rgbaModelConvert c)).w = img.h - 1 := rfl
  have e4 : (uniformImage (img.h - 1) img.w (rgbaModelConvert c)).h = img.w := rfl
  rw [e1, e2] at h1
  rw [e3, e4] at h2
  simp only [h1, assertDraw_of_draw _ (rfl : (uniformImage (img.h - 1) img.w
    (rgbaModelConvert c)).draw = true), Option.bind_eq_bind, Option.some_bind]
  rw [h2]
  rfl

theorem resizeLoops_inv (Q : Image → Prop) (hQd : ∀ a, Q a → a.draw = true)
    (hRV : ∀ a, Q a → 3 ≤ a.w → 1 ≤ a.h →
      ∃ out, removeSeamV a = some out ∧ Q out ∧ out.w = a.w - 1 ∧ out.h = a.h)
    (hRH : ∀ a, Q a → 1 ≤ a.w → 3 ≤ a.h →
      ∃ out, removeSeamH a = some out ∧ Q out ∧ out.w = a.w ∧ out.h = a.h - 1)
    (img : Image) (sx sy : Nat) (hwf : Q img) (hW : sx + 2 ≤ img.w)
    (hH : sy + 2 ≤ img.h) :
    ∃ st, resizeLoops ⟨img, (sx : Int), (sy : Int), []⟩
        (if (sx : Int) ≤ (sy : Int) then (sx : Int) else (sy : Int)) = some st ∧
      Q st.img ∧ st.img.w = img.w - sx ∧ st.img.h = img.h - sy ∧
      st.calls = (List.replicate (min sx sy) [Axis.H, Axis.V]).flatten ++
        List.replicate (sx - min sx sy) Axis.V ++ List.replicate (sy - min sx sy) Axis.H := by
  have hmin : (if (sx : Int) ≤ (sy : Int) then (sx : Int) else (sy : Int)) =
      ((min sx sy : Nat) : Int) := by
    split <;> omega
  rw [hmin]
  generalize hm : min sx sy = m
  have hmx : m ≤ sx := by omega
  have hmy : m ≤ sy := by omega
  have e2m : ((m : Int) * 2).toNat = 2 * m := by omega
  -- the alternating loop
  obtain ⟨st1, h1, i1⟩ := forLoop_inv 0 (2 * m) (fun (st : Driver) i =>
      if i % 2 = 0 then do
        let img ← assertDraw st.img
        let img ← removeSeamH img
        pure { st with img := img, seamcounterY := st.seamcounterY - 1,
                       calls := st.calls ++ [Axis.H] }
      else do
        let img ← assertDraw st.img
        let img ← removeSeamV img
        pure { st with img := img, seamcounterX := st.seamcounterX - 1,
                       calls := st.calls ++ [Axis.V] })
    (fun i (st : Driver) => Q st.img ∧ st.img.w = img.w - i / 2 ∧
      st.img.h = img.h - (i + 1) / 2 ∧
      st.seamcounterX = (sx : Int) - ((i / 2 : Nat) : Int) ∧
      st.seamcounterY = (sy : Int) - (((i + 1) / 2 : Nat) : Int) ∧
      st.calls = (List.replicate (i / 2) [Axis.H, Axis.V]).flatten ++
        (if i % 2 = 1 then [Axis.H] else []))
    ⟨img, (sx : Int), (sy : Int), []⟩ (Nat.zero_le _)
    ⟨hwf, by simp, by simp, by simp, by simp, by simp⟩
    (by
      intro i st _ hi hst
      obtain ⟨kq, kw, kh, kx, ky, kc⟩ := hst
      have hass : assertDraw st.img = some st.img := assertDraw_of_draw _ (hQd st.img kq)
      dsimp only
      by_cases hpar : i % 2 = 0
      · rw [if_pos hpar]
        obtain ⟨out, ho, owf, ow, oh⟩ := hRH st.img kq (by omega) (by omega)
        simp only [hass, ho, Option.bind_eq_bind, Option.some_bind]
        refine ⟨_, rfl, owf, ?_, ?_, ?_, ?_, ?_⟩
        · simp only; omega
        · simp only; omega
        · simp only; omega
        · simp only; omega
        · simp only
          have e1 : (i + 1) / 2 = i / 2 := by omega
          have e2 : (i + 1) % 2 = 1 := by omega
          have e3 : ¬ (i % 2 = 1) := by omega
          rw [kc, e1, if_pos e2, if_neg e3]
          simp
      · rw [if_neg hpar]
        obtain ⟨out, ho, owf, ow, oh⟩ := hRV st.img kq (by omega) (by omega)
        simp only [hass, ho, Option.bind_eq_bind, Option.some_bind]
        refine ⟨_, rfl, owf, ?_, ?_, ?_, ?_, ?_⟩
        · simp only; omega
        · simp only; omega
        · simp only; omega
        · simp only; omega
        · simp only
          have e1 : (i + 1) / 2 = i / 2 + 1 := by omega
          have e2 : ¬ ((i + 1) % 2 = 1) := by omega
          have e3 : i % 2 = 1 := by omega
          rw [kc, e1, if_neg e2, if_pos e3, List.append_nil, ← alternating_step])
  obtain ⟨kwf, kw, kh, kx, ky, kc⟩ := i1
  have a1 : 2 * m / 2 = m := by omega
  have a2 : (2 * m + 1) / 2 = m := by omega
  have a3 : ¬ (2 * m % 2 = 1) := by omega
  rw [a1] at kw kx kc
  rw [a2] at kh ky
  rw [if_neg a3, List.append_nil] at kc
  -- the leftover vertical seams
  have ex : st1.seamcounterX.toNat = sx - m := by omega
  obtain ⟨st2, h2, i2⟩ := forLoop_inv 0 (sx - m) (fun (st : Driver) (_ : Nat) => do
      let img ← assertDraw st.img
      let img ← removeSeamV img
      pure { st with img := img, calls := st.calls ++ [Axis.V] })
    (fun j (st : Driver) => Q st.img ∧ st.img.w = img.w - m - j ∧ st.img.h = img.h - m ∧
      st.seamcounterY = st1.seamcounterY ∧
      st.calls = st1.calls ++ List.replicate j Axis.V)
    st1 (Nat.zero_le _) ⟨kwf, by omega, kh, rfl, by simp⟩
    (by
      intro j st _ hj hst
      obtain ⟨jq, jw, jh, jy, jc⟩ := hst
      have hass : assertDraw st.img = some st.img := assertDraw_of_draw _ (hQd st.img jq)
      obtain ⟨out, ho, owf, ow, oh⟩ := hRV st.img jq (by omega) (by omega)
      simp only [hass, ho, Option.bind_eq_bind, Option.some_bind]
      refine ⟨_, rfl, owf, ?_, ?_, jy, ?_⟩
      · simp only; omega
      · simp only; omega
      · simp only
        rw [jc, List.replicate_succ', List.append_assoc])
  obtain ⟨jwf, jw, jh, jy, jc⟩ := i2
  -- the leftover horizontal seams
  have ey : st2.seamcounterY.toNat = sy - m := by omega
  obtain ⟨st3, h3, i3⟩ := forLoop_inv 0 (sy - m) (fun (st : Driver) (_ : Nat) => do
      let img ← assertDraw st.img
      let img ← removeSeamH img
      pure { st with img := img, calls := st.calls ++ [Axis.H] })
    (fun j (st : Driver) => Q st.img ∧ st.img.w = img.w - sx ∧
      st.img.h = img.h - m - j ∧
      st.calls = st2.calls ++ List.replicate j Axis.H)
    st2 (Nat.zero_le _) ⟨jwf, by omega, jh, by simp⟩
    (by
      intro j st _ hj hst
      obtain ⟨lq, lw, lh, lc⟩ := hst
      have hass : assertDraw st.img = some st.img := assertDraw_of_draw _ (hQd st.img lq)
      obtain ⟨out, ho, owf, ow, oh⟩ := hRH st.img lq (by omega) (by omega)
      simp only [hass, ho, Option.bind_eq_bind, Option.some_bind]
      refine ⟨_, rfl, owf, ?_, ?_, ?_⟩
      · simp only; omega
      · simp only; omega
      · simp only
        rw [lc, List.replicate_succ', List.append_assoc])
  obtain ⟨lwf, lw, lh, lc⟩ := i3
  refine ⟨st3, ?_, lwf, lw, by omega, ?_⟩
  · unfold resizeLoops
    simp only [e2m, Option.bind_eq_bind]
    simp only [Option.bind_eq_bind] at h1 h2 h3
    rw [h1, Option.some_bind, ex, h2, Option.some_bind, ey, h3]
  · rw [lc, jc, kc]

theorem resizeLoops_zero (img : Image) :
    resizeLoops ⟨img, 0, 0, []⟩ 0 = some ⟨img, 0, 0, []⟩ := rfl

theorem resizeLoops_spec (img : Image) (sx sy : Nat) (hwf : img.WF)
    (hdraw : img.draw = true ∨ (sx = 0 ∧ sy = 0))
    (hW : sx + 2 ≤ img.w) (hH : sy + 2 ≤ img.h) :
    ∃ st, resizeLoops ⟨img, (sx : Int), (sy : Int), []⟩
        (if (sx : Int) ≤ (sy : Int) then (sx : Int) else (sy : Int)) = some st ∧
      st.img.WF ∧ st.img.w = img.w - sx ∧ st.img.h = img.h - sy ∧
      st.calls = (List.replicate (min sx sy) [Axis.H, Axis.V]).flatten ++
        List.replicate (sx - min sx sy) Axis.V ++ List.replicate (sy - min sx sy) Axis.H := by
  rcases hdraw with hdraw | ⟨rfl, rfl⟩
  · obtain ⟨st, h1, h2, h3, h4, h5⟩ := resizeLoops_inv (fun a => a.WF ∧ a.draw = true)
      (fun a ha => ha.2)
      (by
        intro a ha h1 h2
        obtain ⟨out, ho, owf, ow, oh⟩ := removeSeamV_dims a h1 h2
        exact ⟨out, ho, ⟨owf, (removeSeamV_kind a out ho).1⟩, ow, oh⟩)
      (by
        intro a ha h1 h2
        obtain ⟨out, ho, owf, ow, oh⟩ := removeSeamH_dims a h1 h2
        exact ⟨out, ho, ⟨owf, (removeSeamH_kind a out ho).1⟩, ow, oh⟩)
      img sx sy ⟨hwf, hdraw⟩ hW hH
    exact ⟨st, h1, h2.1, h3, h4, h5⟩
  · exact ⟨⟨img, 0, 0, []⟩, resizeLoops_zero img, hwf, rfl, rfl, rfl⟩

/-! ## The claims -/

/-- C1, counterexample.  `nrgba3x2` is a 3 x 2 `*image.NRGBA` with translucent pixels.
`removeSeamV` returns for it the 2 x 2 image below, whose pixels are the
`color.RGBAModel` conversions of input pixels: neither of its rows is the corresponding
input row with one column omitted, whichever column that is. -/
theorem removeSeamV_stores_converted_pixels :
    nrgba3x2.WF ∧ nrgba3x2.draw = true ∧ 3 ≤ nrgba3x2.w ∧ 1 ≤ nrgba3x2.h ∧
    seamOf nrgba3x2 = some [0, 1] ∧
    removeSeamV nrgba3x2 =
      some (rgbaImage 2 2
        [[⟨40349, 1799, 17990, 51400⟩, ⟨7967, 20046, 0, 51400⟩],
         [⟨40349, 1799, 17990, 51400⟩, ⟨40349, 1799, 17990, 51400⟩]]) ∧
    nrgba3x2.pix[0]? = some [nrgbaColor, nrgbaColor2, nrgbaColor] ∧
    nrgba3x2.pix[1]? = some [nrgbaColor2, nrgbaColor, nrgbaColor2] ∧
    (∀ s, s < 3 →
      [(⟨40349, 1799, 17990, 51400⟩ : Color), ⟨7967, 20046, 0, 51400⟩] ≠
        [nrgbaColor, nrgbaColor2, nrgbaColor].eraseIdx s) ∧
    (∀ s, s < 3 →
      [(⟨40349, 1799, 17990, 51400⟩ : Color), ⟨40349, 1799, 17990, 51400⟩] ≠
        [nrgbaColor2, nrgbaColor, nrgbaColor2].eraseIdx s) := by
  decide

/-- C1, amended.  For a well-formed image of width at least 3 and height at least 1,
`removeSeamV` returns an image of width `W-1` and height `H`; with `seam` the seam
computed by `getSeamV(getCumMinEnergy(energy(img)))`, row `r` of the result is row `r` of
the input with the single entry at column `seam[r]` erased, all other pixels in their
order and each converted by `color.RGBAModel`; it is the input row with that entry erased
when the conversion leaves the pixels of the row unchanged, as in an `*image.RGBA`. -/
theorem removeSeamV_erases_seam_column (img : Image) (hwf : img.WF) (hW : 3 ≤ img.w)
    (hH : 1 ≤ img.h) :
    ∃ seam out, seamOf img = some seam ∧ removeSeamV img = some out ∧
      out.WF ∧ out.w = img.w - 1 ∧ out.h = img.h ∧ seam.length = img.h ∧
      ∀ r, r < img.h → ∃ row s, img.pix[r]? = some row ∧ row.length = img.w ∧
        seam[r]? = some s ∧ s < img.w ∧
        out.pix[r]? = some ((row.eraseIdx s).map rgbaModelConvert) ∧
        ((∀ p ∈ row, rgbaModelConvert p = p) → out.pix[r]? = some (row.eraseIdx s)) := by
  obtain ⟨e, cum, seam, out, he, hc, hs, ho, _, _, owf, ow, oh, hlen, hrows⟩ :=
    removeSeamV_rows img hwf hW hH
  refine ⟨seam, out, ?_, ho, owf, ow, oh, hlen, ?_⟩
  · unfold seamOf
    simp only [he, hc, Option.bind_eq_bind, Option.some_bind]
    exact hs
  · intro r hr
    obtain ⟨row, h1, h2, h3, h4, h5⟩ := hrows r hr
    refine ⟨row, seam.getD r 0, h1, h2, h3, h4, h5, ?_⟩
    intro hfix
    rw [h5, map_convert_fixed _ (fun p hp => hfix p (List.mem_of_mem_eraseIdx hp))]

/-- C1 amended, instance: the theorem applied to the 3 x 3 sample image, an `*image.RGBA`;
the seam is `[0, 2, 1]` and the rows of the result are the input rows without the pixels
of columns 0, 2 and 1. -/
theorem removeSeamV_erases_seam_column_witness :
    sample3x3.WF ∧ 3 ≤ sample3x3.w ∧ 1 ≤ sample3x3.h ∧
    (∃ seam out, seamOf sample3x3 = some seam ∧ removeSeamV sample3x3 = some out ∧
      out.WF ∧ out.w = sample3x3.w - 1 ∧ out.h = sample3x3.h ∧ seam.length = sample3x3.h ∧
      ∀ r, r < sample3x3.h → ∃ row s, sample3x3.pix[r]? = some row ∧
        row.length = sample3x3.w ∧
        seam[r]? = some s ∧ s < sample3x3.w ∧
        out.pix[r]? = some ((row.eraseIdx s).map rgbaModelConvert) ∧
        ((∀ p ∈ row, rgbaModelConvert p = p) → out.pix[r]? = some (row.eraseIdx s))) ∧
    sample3x3.IsRGBA ∧ seamOf sample3x3 = some [0, 2, 1] ∧
    removeSeamV sample3x3 =
      some (rgbaImage 2 3 [[gray 2, gray 3], [gray 4, gray 5], [gray 7, gray 9]]) :=
  ⟨by decide, by decide, by decide,
    removeSeamV_erases_seam_column sample3x3 (by decide) (by decide) (by decide),
    by decide, by decide, by decide⟩

/-- C2, evaluation at the failing input.  On the 5 x 3 image `brightCorner` the seam that
`removeSeamV` removes is `[0, 2, 1]` with total energy 1542, although the connected
interior seam `[3, 3, 3]` has total energy 0: the removed seam is not a lowest-energy
seam. -/
theorem removed_seam_not_lowest_energy :
    brightCorner.WF ∧ 3 ≤ brightCorner.w ∧
    energy brightCorner = some [[0, 0, 0, 0, 0], [0, 3084, 1542, 0, 0], [0, 0, 0, 0, 0]] ∧
    seamOf brightCorner = some [0, 2, 1] ∧
    InteriorSeam 5 3 [3, 3, 3] ∧
    seamEnergy [[0, 0, 0, 0, 0], [0, 3084, 1542, 0, 0], [0, 0, 0, 0, 0]] [0, 2, 1] = 1542 ∧
    seamEnergy [[0, 0, 0, 0, 0], [0, 3084, 1542, 0, 0], [0, 0, 0, 0, 0]] [3, 3, 3] = 0 := by
  decide

/-- C3, counterexample.  `noSetUniform3x3` is a 3 x 3 image whose type has no `Set`
method, as the `*image.YCbCr` of a decoded colour JPEG.  Resized to 2 x 3, a target within
the bounds of the claim, the type assertion `img.(draw.Image)` before the first removal
panics: the loop performs no removal and ends with no image. -/
theorem resize_panics_without_set_method :
    noSetUniform3x3.WF ∧ noSetUniform3x3.w = 3 ∧ noSetUniform3x3.h = 3 ∧
    noSetUniform3x3.draw = false ∧
    (2 : Int) ≤ 2 ∧ (2 : Int) ≤ noSetUniform3x3.w ∧ (2 : Int) ≤ 3 ∧
    (3 : Int) ≤ noSetUniform3x3.h ∧
    resize noSetUniform3x3 2 3 = Outcome.panicked := by
  decide

/-- C3, amended.  For a well-formed image of size `W x H` whose type implements
`draw.Image` (or any well-formed image when the target is its own size) and a target
`(W2, H2)` with `2 ≤ W2 ≤ W` and `2 ≤ H2 ≤ H`, the resize loops of `main` finish without
failure; they call `removeSeamH` then `removeSeamV` alternately for `min (W-W2) (H-H2)`
rounds, then only `removeSeamV` for the remaining vertical seams and only `removeSeamH`
for the remaining horizontal ones, `W-W2` vertical and `H-H2` horizontal removals in
total, and the final image has width `W2` and height `H2`. -/
theorem resize_reaches_target (img : Image) (W2 H2 : Nat) (hwf : img.WF)
    (hdraw : img.draw = true ∨ (W2 = img.w ∧ H2 = img.h))
    (hW2 : 2 ≤ W2) (hW : W2 ≤ img.w) (hH2 : 2 ≤ H2) (hH : H2 ≤ img.h) :
    ∃ st, resize img (W2 : Int) (H2 : Int) = Outcome.finished st ∧
      st.img.w = W2 ∧ st.img.h = H2 ∧
      st.calls =
        (List.replicate (min (img.w - W2) (img.h - H2)) [Axis.H, Axis.V]).flatten ++
        List.replicate (img.w - W2 - min (img.w - W2) (img.h - H2)) Axis.V ++
        List.replicate (img.h - H2 - min (img.w - W2) (img.h - H2)) Axis.H ∧
      st.calls.count Axis.V = img.w - W2 ∧ st.calls.count Axis.H = img.h - H2 := by
  obtain ⟨st, hst, _, sw, sh, sc⟩ :=
    resizeLoops_spec img (img.w - W2) (img.h - H2) hwf
      (hdraw.imp id (fun h => ⟨by omega, by omega⟩)) (by omega) (by omega)
  have ex : (img.w : Int) - (W2 : Int) = ((img.w - W2 : Nat) : Int) := by omega
  have ey : (img.h : Int) - (H2 : Int) = ((img.h - H2 : Nat) : Int) := by omega
  have cV : ∀ k, ((List.replicate k [Axis.H, Axis.V]).flatten).count Axis.V = k := by
    intro k
    induction k with
    | zero => rfl
    | succ k ih => rw [List.replicate_succ, List.flatten_cons, List.count_append, ih]; simp; omega
  have cH : ∀ k, ((List.replicate k [Axis.H, Axis.V]).flatten).count Axis.H = k := by
    intro k
    induction k with
    | zero => rfl
    | succ k ih => rw [List.replicate_succ, List.flatten_cons, List.count_append, ih]; simp; omega
  refine ⟨st, ?_, by omega, by omega, sc, ?_, ?_⟩
  · unfold resize
    simp only [ex, ey]
    rw [if_neg (by omega), if_neg (by omega), hst]
  · rw [sc, List.count_append, List.count_append, cV, List.count_replicate_self,
      List.count_replicate]
    simp
  · rw [sc, List.count_append, List.count_append, cH, List.count_replicate_self,
      List.count_replicate]
    simp

/-- C3 amended, instance: the theorem applied to the 4 x 5 sample image, an `*image.RGBA`,
and the target 2 x 3. -/
theorem resize_reaches_target_witness :
    sample4x5.WF ∧ (sample4x5.draw = true ∨ (2 = sample4x5.w ∧ 3 = sample4x5.h)) ∧
    2 ≤ 2 ∧ 2 ≤ sample4x5.w ∧ 2 ≤ 3 ∧ 3 ≤ sample4x5.h ∧
    ∃ st, resize sample4x5 ((2 : Nat) : Int) ((3 : Nat) : Int) = Outcome.finished st ∧
      st.img.w = 2 ∧ st.img.h = 3 ∧
      st.calls =
        (List.replicate (min (sample4x5.w - 2) (sample4x5.h - 3)) [Axis.H, Axis.V]).flatten ++
        List.replicate (sample4x5.w - 2 - min (sample4x5.w - 2) (sample4x5.h - 3)) Axis.V ++
        List.replicate (sample4x5.h - 3 - min (sample4x5.w - 2) (sample4x5.h - 3)) Axis.H ∧
      st.calls.count Axis.V = sample4x5.w - 2 ∧ st.calls.count Axis.H = sample4x5.h - 3 :=
  ⟨by decide, by decide, by decide, by decide, by decide, by decide,
    resize_reaches_target sample4x5 2 3 (by decide) (by decide) (by decide) (by decide)
      (by decide) (by decide)⟩

/-- C4. For an image of width at least 1 and height at least 3, `removeSeamH` returns an
image of height `H-1` and width `W`. -/
theorem removeSeamH_decreases_height (img : Image) (hW : 1 ≤ img.w) (hH : 3 ≤ img.h) :
    ∃ out, removeSeamH img = some out ∧ out.h = img.h - 1 ∧ out.w = img.w := by
  obtain ⟨out, ho, _, ow, oh⟩ := removeSeamH_dims img hW hH
  exact ⟨out, ho, oh, ow⟩

/-- C4, instance: the theorem applied to the 4 x 5 sample image. -/
theorem removeSeamH_decreases_height_witness :
    1 ≤ sample4x5.w ∧ 3 ≤ sample4x5.h ∧
    ∃ out, removeSeamH sample4x5 = some out ∧ out.h = sample4x5.h - 1 ∧
      out.w = sample4x5.w :=
  ⟨by decide, by decide, removeSeamH_decreases_height sample4x5 (by decide) (by decide)⟩

/-- C5, counterexample.  For the 3 x 2 `*image.NRGBA` `nrgba3x2` the pixel of the twice
transposed image at `(0, 0)` is the `color.RGBA` with the bytes `(31, 78, 0, 200)`, not
the pixel `color.NRGBA{40, 100, 0, 200}` of the input, whose `RGBA()` values are
`(8062, 20156, 0, 51400)`. -/
theorem transposeImage_twice_changes_pixel :
    nrgba3x2.WF ∧ nrgba3x2.draw = true ∧
    nrgba3x2.At 0 0 = ⟨8062, 20156, 0, 51400⟩ ∧
    (transposeImage (transposeImage nrgba3x2)).At 0 0 = ⟨7967, 20046, 0, 51400⟩ ∧
    (transposeImage (transposeImage nrgba3x2)).At 0 0 ≠ nrgba3x2.At 0 0 := by
  decide

/-- C5, amended.  `transposeImage (transposeImage img)` has the width and the height of
`img`, and at every position `(x, y)` of the rectangle its pixel is the `color.RGBAModel`
conversion of the pixel of `img`, in all four channels; it is the pixel of `img` itself
when the conversion leaves that pixel unchanged, and the whole image is `img` again when
`img` is an `*image.RGBA`. -/
theorem transposeImage_transposeImage (img : Image) (x y : Nat) (hx : x < img.w)
    (hy : y < img.h) :
    (transposeImage (transposeImage img)).w = img.w ∧
    (transposeImage (transposeImage img)).h = img.h ∧
    (transposeImage (transposeImage img)).At x y = rgbaModelConvert (img.At x y) ∧
    (rgbaModelConvert (img.At x y) = img.At x y →
      (transposeImage (transposeImage img)).At x y = img.At x y) ∧
    (img.IsRGBA → transposeImage (transposeImage img) = img) := by
  obtain ⟨_, tw, th, tat⟩ := transposeImage_spec img
  obtain ⟨_, uw, uh, uat⟩ := transposeImage_spec (transposeImage img)
  have hat : (transposeImage (transposeImage img)).At x y = rgbaModelConvert (img.At x y) := by
    rw [uat x y (by rw [th]; exact hx) (by rw [tw]; exact hy), tat y x hy hx,
      rgbaModelConvert_idem]
  refine ⟨by rw [uw, th], by rw [uh, tw], hat, ?_, transposeImage_twice img⟩
  intro hfix
  rw [hat, hfix]

/-- C5 amended, instance: the theorem applied to the 4 x 5 sample image, an `*image.RGBA`,
at the position `(3, 1)`. -/
theorem transposeImage_transposeImage_witness :
    3 < sample4x5.w ∧ 1 < sample4x5.h ∧
    ((transposeImage (transposeImage sample4x5)).w = sample4x5.w ∧
    (transposeImage (transposeImage sample4x5)).h = sample4x5.h ∧
    (transposeImage (transposeImage sample4x5)).At 3 1 =
      rgbaModelConvert (sample4x5.At 3 1) ∧
    (rgbaModelConvert (sample4x5.At 3 1) = sample4x5.At 3 1 →
      (transposeImage (transposeImage sample4x5)).At 3 1 = sample4x5.At 3 1) ∧
    (sample4x5.IsRGBA → transposeImage (transposeImage sample4x5) = sample4x5)) ∧
    rgbaModelConvert (sample4x5.At 3 1) = sample4x5.At 3 1 ∧ sample4x5.IsRGBA :=
  ⟨by decide, by decide, transposeImage_transposeImage sample4x5 3 1 (by decide) (by decide),
    by decide, by decide⟩

/-- C6, counterexample.  For the 3 x 2 `*image.NRGBA` `nrgba3x2` the pixel of the
transposed image at `(1, 2)` is the `color.RGBA` with the bytes `(157, 7, 70, 200)`, not
the pixel `color.NRGBA{200, 10, 90, 200}` of the input at `(2, 1)`, whose `RGBA()` values
are `(40313, 2015, 18141, 51400)`. -/
theorem transposeImage_changes_pixel :
    nrgba3x2.WF ∧ nrgba3x2.draw = true ∧ 2 < nrgba3x2.w ∧ 1 < nrgba3x2.h ∧
    (transposeImage nrgba3x2).w = 2 ∧ (transposeImage nrgba3x2).h = 3 ∧
    nrgba3x2.At 2 1 = ⟨40313, 2015, 18141, 51400⟩ ∧
    (transposeImage nrgba3x2).At 1 2 = ⟨40349, 1799, 17990, 51400⟩ ∧
    (transposeImage nrgba3x2).At 1 2 ≠ nrgba3x2.At 2 1 := by
  decide

/-- C6, amended.  For an image of width `W` and height `H`, `transposeImage img` has width
`H` and height `W`, and its pixel at `(y, x)` is the `color.RGBAModel` conversion of the
pixel of `img` at `(x, y)` for `x < W` and `y < H`; it is that pixel itself when the
conversion leaves it unchanged, as it does every pixel of an `*image.RGBA`. -/
theorem transposeImage_swaps (img : Image) (x y : Nat) (hx : x < img.w) (hy : y < img.h) :
    (transposeImage img).w = img.h ∧ (transposeImage img).h = img.w ∧
    (transposeImage img).At y x = rgbaModelConvert (img.At x y) ∧
    (rgbaModelConvert (img.At x y) = img.At x y →
      (transposeImage img).At y x = img.At x y) ∧
    (img.IsRGBA → (transposeImage img).At y x = img.At x y) := by
  obtain ⟨_, tw, th, tat⟩ := transposeImage_spec img
  refine ⟨tw, th, tat y x hy hx, ?_, ?_⟩
  · intro hfix
    rw [tat y x hy hx, hfix]
  · intro hrgba
    rw [tat y x hy hx, hrgba.2.2.2 y hy x hx]

/-- C6 amended, instance: the theorem applied to the 4 x 5 sample image, an `*image.RGBA`,
at `x = 3`, `y = 1`. -/
theorem transposeImage_swaps_witness :
    3 < sample4x5.w ∧ 1 < sample4x5.h ∧
    ((transposeImage sample4x5).w = sample4x5.h ∧
    (transposeImage sample4x5).h = sample4x5.w ∧
    (transposeImage sample4x5).At 1 3 = rgbaModelConvert (sample4x5.At 3 1) ∧
    (rgbaModelConvert (sample4x5.At 3 1) = sample4x5.At 3 1 →
      (transposeImage sample4x5).At 1 3 = sample4x5.At 3 1) ∧
    (sample4x5.IsRGBA → (transposeImage sample4x5).At 1 3 = sample4x5.At 3 1)) ∧
    sample4x5.IsRGBA ∧ (transposeImage sample4x5).At 1 3 = gray 8 :=
  ⟨by decide, by decide, transposeImage_swaps sample4x5 3 1 (by decide) (by decide),
    by decide, by decide⟩

/-- C7, evaluation at the failing input.  On the all-zero cumulative map with 3 rows and
3 columns `getSeamV` returns `[0, 2, 1]`: row 0 is never assigned and keeps the value 0,
so the entries of rows 0 and 1 differ by 2. -/
theorem getSeamV_row0_disconnected :
    Grid.Dim [[0, 0, 0], [0, 0, 0], [0, 0, 0]] 3 3 ∧
    getSeamV [[0, 0, 0], [0, 0, 0], [0, 0, 0]] = some [0, 2, 1] ∧
    ¬ (([0, 2, 1] : List Nat).getD 1 0 ≤ ([0, 2, 1] : List Nat).getD 0 0 + 1) := by
  refine ⟨⟨rfl, by decide⟩, by decide, by decide⟩

/-- C8, evaluation at the failing input.  For the uniform 3 x 3 image the seam
`getSeamV(getCumMinEnergy(energy(img)))` is `[0, 2, 1]`: its entry for row 0 is the edge
column 0 and its entry for row 1 is the edge column `W-1 = 2`, both outside the interior
range `1..W-2`. -/
theorem seam_leaves_interior_columns :
    black3x3.WF ∧ black3x3.w = 3 ∧ seamOf black3x3 = some [0, 2, 1] ∧
    ¬ (∀ c ∈ ([0, 2, 1] : List Nat), 1 ≤ c ∧ c ≤ black3x3.w - 2) := by
  decide

/-- C9, evaluation at the failing input.  The energy grid of the 6 x 3 image
`brightColumn` is non-negative; its cumulative map is the grid itself and the seam is
`[0, 2, 2]`, so that the cumulative energy along the seam drops from 3084 in row 1 to 0
in row 2. -/
theorem cumulative_energy_decreases_along_seam :
    energy brightColumn =
      some [[0, 0, 0, 0, 0, 0], [0, 0, 3084, 0, 0, 0], [0, 0, 0, 0, 0, 0]] ∧
    getCumMinEnergy [[0, 0, 0, 0, 0, 0], [0, 0, 3084, 0, 0, 0], [0, 0, 0, 0, 0, 0]] =
      some [[0, 0, 0, 0, 0, 0], [0, 0, 3084, 0, 0, 0], [0, 0, 0, 0, 0, 0]] ∧
    getSeamV [[0, 0, 0, 0, 0, 0], [0, 0, 3084, 0, 0, 0], [0, 0, 0, 0, 0, 0]] =
      some [0, 2, 2] ∧
    Grid.val [[0, 0, 0, 0, 0, 0], [0, 0, 3084, 0, 0, 0], [0, 0, 0, 0, 0, 0]] 1 2 = 3084 ∧
    Grid.val [[0, 0, 0, 0, 0, 0], [0, 0, 3084, 0, 0, 0], [0, 0, 0, 0, 0, 0]] 2 2 = 0 := by
  decide

/-- C10. For an image of width at least 3 and height at least 1, `energy`,
`getCumMinEnergy`, `getSeamV` and the pixel copy loop of `removeSeamV` all return a
result: no slice index is out of range.  For every image, each pixel access of
`transposeImage` lies inside the rectangle of the image it touches. -/
theorem no_index_out_of_range (img : Image) (hW : 3 ≤ img.w) (hH : 1 ≤ img.h)
    (img2 : Image) :
    (∃ e cum seam out, energy img = some e ∧ getCumMinEnergy e = some cum ∧
      getSeamV cum = some seam ∧
      copyPixels img seam (img.w - 1) img.h (NewRGBA (img.w - 1) img.h) = some out ∧
      removeSeamV img = some out) ∧
    transposeImageChecked img2 = some (transposeImage img2) := by
  obtain ⟨e, cum, seam, out, he, hc, hs, ho, _, _, hlen, _⟩ := removeSeamV_spec img hW hH
  refine ⟨⟨e, cum, seam, out, he, hc, hs, ?_, ho⟩, transposeImageChecked_eq img2⟩
  unfold removeSeamV at ho
  simp only [he, hc, hs, Option.bind_eq_bind, Option.some_bind] at ho
  exact ho

/-- C10, instance: the theorem applied to the 3 x 3 sample image and, for the
transposition, to the 4 x 5 sample image. -/
theorem no_index_out_of_range_witness :
    3 ≤ sample3x3.w ∧ 1 ≤ sample3x3.h ∧
    (∃ e cum seam out, energy sample3x3 = some e ∧ getCumMinEnergy e = some cum ∧
      getSeamV cum = some seam ∧
      copyPixels sample3x3 seam (sample3x3.w - 1) sample3x3.h
        (NewRGBA (sample3x3.w - 1) sample3x3.h) = some out ∧
      removeSeamV sample3x3 = some out) ∧
    transposeImageChecked sample4x5 = some (transposeImage sample4x5) :=
  ⟨by decide, by decide, no_index_out_of_range sample3x3 (by decide) (by decide) sample4x5⟩

/-- C12, counterexample.  The uniform 3 x 3 `*image.NRGBA` of the translucent colour
`color.NRGBA{40, 100, 0, 200}`, resized to 2 x 3, ends as a 2 x 3 image whose pixels are
the `color.RGBA` with the bytes `(31, 78, 0, 200)`, a colour with other `RGBA()` values
than the colour of the input.  The uniform 3 x 3 image `noSetUniform3x3`, whose type has
no `Set` method, resized to 2 x 2, returns no image: the type assertion before the first
removal panics. -/
theorem resize_changes_uniform_colour :
    nrgbaUniform3x3 = uniformImage 3 3 nrgbaColor ∧
    (∃ st, resize nrgbaUniform3x3 2 3 = Outcome.finished st ∧
      st.img = uniformImage 2 3 ⟨7967, 20046, 0, 51400⟩ ∧ st.calls = [Axis.V]) ∧
    (uniformImage 2 3 ⟨7967, 20046, 0, 51400⟩).At 0 0 ≠ nrgbaColor ∧
    noSetUniform3x3.WF ∧ noSetUniform3x3.draw = false ∧
    (∀ x, x < noSetUniform3x3.w → ∀ y, y < noSetUniform3x3.h →
      noSetUniform3x3.At x y = gray 7) ∧
    resize noSetUniform3x3 2 2 = Outcome.panicked := by
  refine ⟨by decide, ⟨_, rfl, by decide, by decide⟩, by decide, by decide, by decide,
    by decide, by decide⟩

/-- C12, amended.  An image of size `W x H` whose pixels all have the colour `c` and
whose type implements `draw.Image` (or any such image when the target is its own size),
resized to `(W2, H2)` with `2 ≤ W2 ≤ W` and `2 ≤ H2 ≤ H`, ends after the removals of C3
(`min (W-W2) (H-H2)` rounds of `removeSeamH`, `removeSeamV`, then the remaining vertical
and the remaining horizontal removals) as the input image itself when the target is its
own size, and otherwise as the uniform `*image.RGBA` of size `W2 x H2` of the
`color.RGBAModel` conversion of `c`; all pixels of the result have the colour `c` when
the conversion leaves `c` unchanged. -/
theorem resize_keeps_uniform (img : Image) (c : Color) (W2 H2 : Nat)
    (huni : ∀ x y, x < img.w → y < img.h → img.At x y = c)
    (hdraw : img.draw = true ∨ (W2 = img.w ∧ H2 = img.h))
    (hW2 : 2 ≤ W2) (hW : W2 ≤ img.w) (hH2 : 2 ≤ H2) (hH : H2 ≤ img.h) :
    ∃ st, resize img (W2 : Int) (H2 : Int) = Outcome.finished st ∧
      st.img.w = W2 ∧ st.img.h = H2 ∧
      (if W2 = img.w ∧ H2 = img.h then st.img = img
        else st.img = uniformImage W2 H2 (rgbaModelConvert c)) ∧
      (rgbaModelConvert c = c → ∀ x y, x < W2 → y < H2 → st.img.At x y = c) ∧
      st.calls =
        (List.replicate (min (img.w - W2) (img.h - H2)) [Axis.H, Axis.V]).flatten ++
        List.replicate (img.w - W2 - min (img.w - W2) (img.h - H2)) Axis.V ++
        List.replicate (img.h - H2 - min (img.w - W2) (img.h - H2)) Axis.H := by
  have ex : (img.w : Int) - (W2 : Int) = ((img.w - W2 : Nat) : Int) := by omega
  have ey : (img.h : Int) - (H2 : Int) = ((img.h - H2 : Nat) : Int) := by omega
  by_cases hsame : W2 = img.w ∧ H2 = img.h
  · obtain ⟨rfl, rfl⟩ := hsame
    refine ⟨⟨img, 0, 0, []⟩, ?_, rfl, rfl, ?_, ?_, ?_⟩
    · unfold resize
      simp only [sub_self, lt_self_iff_false, if_false, le_refl, if_true]
      rfl
    · rw [if_pos ⟨rfl, rfl⟩]
    · intro _ x y hx hy
      exact huni x y hx hy
    · simp
  · have hdr : img.draw = true := hdraw.resolve_right hsame
    obtain ⟨st, hst, hq, sw, sh, sc⟩ :=
      resizeLoops_inv
        (fun a => a.draw = true ∧
          ((a = img) ∨ ∃ w h, a = uniformImage w h (rgbaModelConvert c)))
        (fun a ha => ha.1)
        (by
          rintro a ⟨_, rfl | ⟨w, h, rfl⟩⟩ h1 h2
          · exact ⟨_, removeSeamV_uniform a c h1 h2 huni, ⟨rfl, Or.inr ⟨_, _, rfl⟩⟩, rfl, rfl⟩
          · have := removeSeamV_uniform (uniformImage w h (rgbaModelConvert c))
              (rgbaModelConvert c) h1 h2 (fun x y hx hy => uniformImage_At _ _ _ x y hx hy)
            rw [rgbaModelConvert_idem] at this
            exact ⟨_, this, ⟨rfl, Or.inr ⟨_, _, rfl⟩⟩, rfl, rfl⟩)
        (by
          rintro a ⟨_, rfl | ⟨w, h, rfl⟩⟩ h1 h2
          · exact ⟨_, removeSeamH_uniform a c h1 h2 huni, ⟨rfl, Or.inr ⟨_, _, rfl⟩⟩, rfl, rfl⟩
          · have := removeSeamH_uniform (uniformImage w h (rgbaModelConvert c))
              (rgbaModelConvert c) h1 h2 (fun x y hx hy => uniformImage_At _ _ _ x y hx hy)
            rw [rgbaModelConvert_idem] at this
            exact ⟨_, this, ⟨rfl, Or.inr ⟨_, _, rfl⟩⟩, rfl, rfl⟩)
        img (img.w - W2) (img.h - H2) ⟨hdr, Or.inl rfl⟩ (by omega) (by omega)
    have hfinal : st.img = uniformImage W2 H2 (rgbaModelConvert c) := by
      rcases hq.2 with hq | ⟨w, h, hq⟩
      · rw [hq] at sw sh
        exact absurd ⟨by omega, by omega⟩ hsame
      · rw [hq] at sw sh ⊢
        have e1 : w = W2 := by
          have : (uniformImage w h (rgbaModelConvert c)).w = w := rfl
          omega
        have e2 : h = H2 := by
          have : (uniformImage w h (rgbaModelConvert c)).h = h := rfl
          omega
        rw [e1, e2]
    refine ⟨st, ?_, by omega, by omega, ?_, ?_, sc⟩
    · unfold resize
      simp only [ex, ey]
      rw [if_neg (by omega), if_neg (by omega), hst]
    · rw [if_neg hsame]
      exact hfinal
    · intro hfix x y hx hy
      rw [hfinal, uniformImage_At _ _ _ _ _ hx hy, hfix]

/-- C12 amended, instance: a uniform 10 x 10 `*image.RGBA` resized to 8 x 8 undergoes the
four removals `removeSeamH`, `removeSeamV`, `removeSeamH`, `removeSeamV` (2 vertical,
2 horizontal) and ends as the uniform 8 x 8 image of the same colour. -/
theorem resize_keeps_uniform_witness :
    (∀ x y, x < (uniformImage 10 10 (gray 7)).w → y < (uniformImage 10 10 (gray 7)).h →
      (uniformImage 10 10 (gray 7)).At x y = gray 7) ∧
    (uniformImage 10 10 (gray 7)).draw = true ∧
    2 ≤ 8 ∧ 8 ≤ (uniformImage 10 10 (gray 7)).w ∧
    2 ≤ 8 ∧ 8 ≤ (uniformImage 10 10 (gray 7)).h ∧ rgbaModelConvert (gray 7) = gray 7 ∧
    ∃ st, resize (uniformImage 10 10 (gray 7)) ((8 : Nat) : Int) ((8 : Nat) : Int) =
        Outcome.finished st ∧
      st.img.w = 8 ∧ st.img.h = 8 ∧
      st.img = uniformImage 8 8 (gray 7) ∧
      (rgbaModelConvert (gray 7) = gray 7 → ∀ x y, x < 8 → y < 8 → st.img.At x y = gray 7) ∧
      st.calls = [Axis.H, Axis.V, Axis.H, Axis.V] :=
  ⟨fun x y hx hy => uniformImage_At 10 10 (gray 7) x y hx hy, by decide, by decide,
    by decide, by decide, by decide, by decide,
    resize_keeps_uniform (uniformImage 10 10 (gray 7)) (gray 7) 8 8
      (fun x y hx hy => uniformImage_At 10 10 (gray 7) x y hx hy) (Or.inl (by decide))
      (by decide) (by decide) (by decide) (by decide)⟩

/-- C13. Resizing an image to its own size calls no seam removal and ends with the input
image itself. -/
theorem resize_same_size (img : Image) :
    resize img (img.w : Int) (img.h : Int) = Outcome.finished ⟨img, 0, 0, []⟩ := by
  unfold resize
  simp only [sub_self, lt_self_iff_false, if_false, le_refl, if_true]
  rfl

/-- C14. For an image of width and height at least 2, `energy` returns a grid with the
dimensions of the image that holds 0 at every position of the first row, the last row,
the first column and the last column. -/
theorem energy_border_zero (img : Image) (hW : 2 ≤ img.w) (hH : 2 ≤ img.h) :
    ∃ e, energy img = some e ∧ e.Dim img.h img.w ∧
      (∀ c, c < img.w → e.get2 0 c = some 0 ∧ e.get2 (img.h - 1) c = some 0) ∧
      (∀ r, r < img.h → e.get2 r 0 = some 0 ∧ e.get2 r (img.w - 1) = some 0) := by
  obtain ⟨e, he, hd, hz⟩ := energy_border img
  refine ⟨e, he, hd, ?_, ?_⟩
  · intro c hc
    rw [get2_eq e _ _ 0 c hd (by omega) hc, get2_eq e _ _ (img.h - 1) c hd (by omega) hc,
      hz 0 c (by simp), hz (img.h - 1) c (by simp)]
    exact ⟨rfl, rfl⟩
  · intro r hr
    rw [get2_eq e _ _ r 0 hd hr (by omega), get2_eq e _ _ r (img.w - 1) hd hr (by omega),
      hz r 0 (by simp), hz r (img.w - 1) (by simp)]
    exact ⟨rfl, rfl⟩

/-- C14, instance: the theorem applied to the 4 x 5 sample image. -/
theorem energy_border_zero_witness :
    2 ≤ sample4x5.w ∧ 2 ≤ sample4x5.h ∧
    ∃ e, energy sample4x5 = some e ∧ e.Dim sample4x5.h sample4x5.w ∧
      (∀ c, c < sample4x5.w → e.get2 0 c = some 0 ∧ e.get2 (sample4x5.h - 1) c = some 0) ∧
      (∀ r, r < sample4x5.h → e.get2 r 0 = some 0 ∧ e.get2 r (sample4x5.w - 1) = some 0) :=
  ⟨by decide, by decide, energy_border_zero sample4x5 (by decide) (by decide)⟩

/-- C15. For an energy grid of `H ≥ 1` rows and `W ≥ 4` columns whose row 0 is zero,
`getCumMinEnergy` returns a grid `cum` such that, for every row `r` and interior column
`c` in `1..W-2`, `cum[r][c]` is the least total energy of a connected path through the
interior columns from row 0 down to `(r, c)`: it is a lower bound of the energy of every
such path and the energy of one of them.  Row 0 and the edge columns 0 and `W-1` of `cum`
are zero. -/
theorem getCumMinEnergy_is_least_path_energy (e : Grid) (H W : Nat) (hd : e.Dim H W)
    (hH : 1 ≤ H) (hW : 4 ≤ W) (hrow0 : ∀ c, c < W → e.val 0 c = 0) :
    ∃ cum, getCumMinEnergy e = some cum ∧ cum.Dim H W ∧
      (∀ r c, r < H → 1 ≤ c → c + 2 ≤ W →
        (∀ p, InteriorSeam W (r + 1) p → p.getD r 0 = c → cum.val r c ≤ seamEnergy e p) ∧
        ∃ p, InteriorSeam W (r + 1) p ∧ p.getD r 0 = c ∧ seamEnergy e p = cum.val r c) ∧
      (∀ c, c < W → cum.val 0 c = 0) ∧
      (∀ r, r < H → cum.val r 0 = 0 ∧ cum.val r (W - 1) = 0) := by
  obtain ⟨cum, h1, h2, h3⟩ := getCumMinEnergy_val e H W hd hH (by omega)
  refine ⟨cum, h1, h2, ?_, ?_, ?_⟩
  · intro r c hr hc1 hc2
    rw [h3 r c hr]
    constructor
    · intro p hp hpc
      rw [← hpc]
      exact cumValue_le_path e W hW hrow0 r p hp
    · exact cumValue_attained e W hW hrow0 r c hc1 hc2
  · intro c _
    rw [h3 0 c (by omega), cumValue_row0]
  · intro r hr
    rw [h3 r 0 hr, h3 r (W - 1) hr, cumValue_edge e W r 0 (Or.inl rfl),
      cumValue_edge e W r (W - 1) (Or.inr (by omega))]
    exact ⟨rfl, rfl⟩

/-- C15, instance: the theorem applied to the energy grid `sampleEnergy` of 3 rows and 4
columns. -/
theorem getCumMinEnergy_is_least_path_energy_witness :
    sampleEnergy.Dim 3 4 ∧ 1 ≤ 3 ∧ 4 ≤ 4 ∧ (∀ c, c < 4 → sampleEnergy.val 0 c = 0) ∧
    ∃ cum, getCumMinEnergy sampleEnergy = some cum ∧ cum.Dim 3 4 ∧
      (∀ r c, r < 3 → 1 ≤ c → c + 2 ≤ 4 →
        (∀ p, InteriorSeam 4 (r + 1) p → p.getD r 0 = c →
          cum.val r c ≤ seamEnergy sampleEnergy p) ∧
        ∃ p, InteriorSeam 4 (r + 1) p ∧ p.getD r 0 = c ∧
          seamEnergy sampleEnergy p = cum.val r c) ∧
      (∀ c, c < 4 → cum.val 0 c = 0) ∧
      (∀ r, r < 3 → cum.val r 0 = 0 ∧ cum.val r (4 - 1) = 0) :=
  ⟨⟨rfl, by decide⟩, by decide, by decide, by decide,
    getCumMinEnergy_is_least_path_energy sampleEnergy 3 4 ⟨rfl, by decide⟩ (by decide)
      (by decide) (by decide)⟩

/-- C16, evaluation at the failing input.  `brightCornerCum` is the cumulative map of the
5 x 3 image `brightCorner`; its bottom row is `[0, 1542, 0, 0, 0]`.  `getSeamV` returns
`[0, 2, 1]`: the start column, the last entry, is column 1 of value 1542, although the
interior columns 2 and 3 of the bottom row hold the smaller value 0. -/
theorem start_column_not_minimal :
    (energy brightCorner).bind getCumMinEnergy = some brightCornerCum ∧
    brightCornerCum.Dim 3 5 ∧
    getSeamV brightCornerCum = some [0, 2, 1] ∧
    ([0, 2, 1] : List Nat).getD 2 0 = 1 ∧
    brightCornerCum.val 2 1 = 1542 ∧ brightCornerCum.val 2 2 = 0 ∧
    brightCornerCum.val 2 3 = 0 := by
  refine ⟨by decide, ⟨rfl, by decide⟩, by decide, by decide, by decide, by decide, by decide⟩

/-- C17, counterexample.  On the all-zero cumulative map of 4 rows and 3 columns the
seam is `[0, 1, 2, 1]`.  In the step from row 3 to row 2 the current column is the
leftmost allowed column `m = 1`, where `cum[2][1]` and `cum[2][2]` are compared: the
diagonal value `cum[2][2]` is not strictly smaller than `cum[2][1]`, and yet
`seam[2] = 2`.  In the step from row 2 to row 1 the current column is the rightmost
column `m = 2`, where `cum[1][2]` and `cum[1][1]` are compared: the diagonal value
`cum[1][1]` is not strictly smaller than `cum[1][2]`, and yet `seam[1] = 1`.  At neither
border does the seam stay in its column. -/
theorem border_tie_moves_sideways :
    zeroCum4x3.Dim 4 3 ∧ getSeamV zeroCum4x3 = some [0, 1, 2, 1] ∧
    ([0, 1, 2, 1] : List Nat).getD 3 0 = 1 ∧
    ¬ (zeroCum4x3.val 2 (1 + 1) < zeroCum4x3.val 2 1) ∧
    ([0, 1, 2, 1] : List Nat).getD 2 0 ≠ ([0, 1, 2, 1] : List Nat).getD 3 0 ∧
    ([0, 1, 2, 1] : List Nat).getD 2 0 = 3 - 1 ∧
    ¬ (zeroCum4x3.val 1 (2 - 1) < zeroCum4x3.val 1 2) ∧
    ([0, 1, 2, 1] : List Nat).getD 1 0 ≠ ([0, 1, 2, 1] : List Nat).getD 2 0 := by
  refine ⟨⟨rfl, by decide⟩, by decide, by decide, by decide, by decide, by decide,
    by decide, by decide⟩

/-- C17, amended.  In a step of the upward traversal of `getSeamV` from row `i+1` to row
`i` (`1 ≤ i ≤ H-2`) with current column `m = seam[i+1]`: when `m` is neither 1 nor `W-1`
(three candidates are compared) and neither `cum[i][m-1]` nor `cum[i][m+1]` is strictly
smaller than `cum[i][m]`, the seam stays, `seam[i] = m`.  At the leftmost allowed column
`m = 1` (two candidates) the seam stays if `cum[i][1] < cum[i][2]` and moves to column 2
otherwise, also on a tie.  At the rightmost column `m = W-1` (two candidates) the seam
stays if `cum[i][W-1] < cum[i][W-2]` and moves to column `W-2` otherwise, also on a
tie. -/
theorem seam_step_tie_policy (cum : Grid) (H W i : Nat) (hd : cum.Dim H W) (hW : 3 ≤ W)
    (hi1 : 1 ≤ i) (hi2 : i + 2 ≤ H) :
    ∃ seam, getSeamV cum = some seam ∧
      (seam.getD (i + 1) 0 ≠ 1 → seam.getD (i + 1) 0 ≠ W - 1 →
        ¬ (cum.val i (seam.getD (i + 1) 0 - 1) < cum.val i (seam.getD (i + 1) 0)) →
        ¬ (cum.val i (seam.getD (i + 1) 0 + 1) < cum.val i (seam.getD (i + 1) 0)) →
        seam.getD i 0 = seam.getD (i + 1) 0) ∧
      (seam.getD (i + 1) 0 = 1 →
        seam.getD i 0 = if cum.val i 1 < cum.val i 2 then 1 else 2) ∧
      (seam.getD (i + 1) 0 = W - 1 →
        seam.getD i 0 = if cum.val i (W - 1) < cum.val i (W - 2) then W - 1 else W - 2) := by
  obtain ⟨seam, hs, _, _, _, _, hstep⟩ := getSeamV_full cum H W hd (by omega) hW
  refine ⟨seam, hs, ?_, ?_, ?_⟩
  · intro h1 h2 hl hr
    rw [hstep i hi1 (by omega)]
    unfold stepCol
    rw [if_neg h1, if_neg h2, if_neg (fun h => hl h.1), if_neg (fun h => hr h.1)]
  · intro h1
    rw [hstep i hi1 (by omega), h1]
    unfold stepCol
    rw [if_pos rfl]
  · intro h1
    rw [hstep i hi1 (by omega), h1]
    unfold stepCol
    rw [if_neg (show ¬ (W - 1 = 1) by omega), if_pos rfl]
    have e : W - 1 - 1 = W - 2 := by omega
    rw [e]

/-- C17 amended, instance: the theorem applied to the map `valleyCum` of 3 rows and 6
columns at `i = 1`.  There the seam is `[0, 2, 2]`: the step from row 2 to row 1 starts in
column 2, an in-between column, no diagonal value of row 1 is smaller than the straight-up
value 1, and the seam stays in column 2. -/
theorem seam_step_tie_policy_witness :
    valleyCum.Dim 3 6 ∧ 3 ≤ 6 ∧ 1 ≤ 1 ∧ 1 + 2 ≤ 3 ∧
    (∃ seam, getSeamV valleyCum = some seam ∧
      (seam.getD (1 + 1) 0 ≠ 1 → seam.getD (1 + 1) 0 ≠ 6 - 1 →
        ¬ (valleyCum.val 1 (seam.getD (1 + 1) 0 - 1) <
            valleyCum.val 1 (seam.getD (1 + 1) 0)) →
        ¬ (valleyCum.val 1 (seam.getD (1 + 1) 0 + 1) <
            valleyCum.val 1 (seam.getD (1 + 1) 0)) →
        seam.getD 1 0 = seam.getD (1 + 1) 0) ∧
      (seam.getD (1 + 1) 0 = 1 →
        seam.getD 1 0 = if valleyCum.val 1 1 < valleyCum.val 1 2 then 1 else 2) ∧
      (seam.getD (1 + 1) 0 = 6 - 1 →
        seam.getD 1 0 =
          if valleyCum.val 1 (6 - 1) < valleyCum.val 1 (6 - 2) then 6 - 1 else 6 - 2)) ∧
    getSeamV valleyCum = some [0, 2, 2] :=
  ⟨⟨rfl, by decide⟩, by decide, by decide, by decide,
    seam_step_tie_policy valleyCum 3 6 1 ⟨rfl, by decide⟩ (by decide) (by decide)
      (by decide), by decide⟩

/-- C18, counterexample.  For the 3 x 2 `*image.NRGBA` `nrgba3x2` the seam is `[0, 1]`,
so `seam[0] = 0`, but row 0 of the image that `removeSeamV` returns is not row 0 of the
input without its first pixel: it holds the `color.RGBAModel` conversions of those
pixels, the `color.RGBA` with the bytes `(157, 7, 70, 200)` and `(31, 78, 0, 200)`. -/
theorem row0_of_result_is_converted :
    nrgba3x2.WF ∧ nrgba3x2.draw = true ∧ 3 ≤ nrgba3x2.w ∧ 2 ≤ nrgba3x2.h ∧
    seamOf nrgba3x2 = some [0, 1] ∧
    nrgba3x2.pix[0]? = some [nrgbaColor, nrgbaColor2, nrgbaColor] ∧
    (removeSeamV nrgba3x2).map (fun out => out.pix[0]?) =
      some (some [⟨40349, 1799, 17990, 51400⟩, ⟨7967, 20046, 0, 51400⟩]) ∧
    [(⟨40349, 1799, 17990, 51400⟩ : Color), ⟨7967, 20046, 0, 51400⟩] ≠
      [nrgbaColor, nrgbaColor2, nrgbaColor].tail := by
  decide

/-- C18, amended.  For a well-formed image of width at least 3 and height at least 2 the
seam computed by `getSeamV` has `seam[0] = 0`, and row 0 of the image returned by
`removeSeamV` is row 0 of the input without its first pixel, each remaining pixel
converted by `color.RGBAModel`; it is row 0 of the input without its first pixel when
the conversion leaves the pixels of that row unchanged, as in an `*image.RGBA`. -/
theorem seam_row0_is_zero (img : Image) (hwf : img.WF) (hW : 3 ≤ img.w) (hH : 2 ≤ img.h) :
    ∃ seam out row0, seamOf img = some seam ∧ seam[0]? = some 0 ∧
      removeSeamV img = some out ∧ img.pix[0]? = some row0 ∧
      out.pix[0]? = some (row0.tail.map rgbaModelConvert) ∧
      ((∀ p ∈ row0, rgbaModelConvert p = p) → out.pix[0]? = some row0.tail) := by
  obtain ⟨e, cum, seam, out, he, hc, hs, ho, _, hcd, _, _, _, _, hrows⟩ :=
    removeSeamV_rows img hwf hW (by omega)
  obtain ⟨seam2, hs2, _, _, _, hzero, _⟩ := getSeamV_full cum img.h img.w hcd (by omega) hW
  have hsame : seam2 = seam := by
    rw [hs] at hs2; exact (Option.some.inj hs2).symm
  subst hsame
  obtain ⟨row, h1, _, h3, _, h5⟩ := hrows 0 (by omega)
  rw [hzero hH] at h3 h5
  rw [List.eraseIdx_zero] at h5
  refine ⟨seam2, out, row, ?_, h3, ho, h1, h5, ?_⟩
  · unfold seamOf
    simp only [he, hc, Option.bind_eq_bind, Option.some_bind]
    exact hs
  · intro hfix
    rw [h5, map_convert_fixed _ (fun p hp => hfix p (List.mem_of_mem_tail hp))]

/-- C18 amended, instance: the theorem applied to the 3 x 3 sample image, an
`*image.RGBA`. -/
theorem seam_row0_is_zero_witness :
    sample3x3.WF ∧ 3 ≤ sample3x3.w ∧ 2 ≤ sample3x3.h ∧
    (∃ seam out row0, seamOf sample3x3 = some seam ∧ seam[0]? = some 0 ∧
      removeSeamV sample3x3 = some out ∧ sample3x3.pix[0]? = some row0 ∧
      out.pix[0]? = some (row0.tail.map rgbaModelConvert) ∧
      ((∀ p ∈ row0, rgbaModelConvert p = p) → out.pix[0]? = some row0.tail)) ∧
    sample3x3.IsRGBA :=
  ⟨by decide, by decide, by decide,
    seam_row0_is_zero sample3x3 (by decide) (by decide) (by decide), by decide⟩

/-- C19. For a cumulative map of `H ≥ 2` rows and `W ≥ 3` columns the seam `s` returned
by `getSeamV` satisfies `1 ≤ s[r] ≤ W-1` on the rows `1..H-1`, and `s[r]` and `s[r+1]`
differ by at most 1 for `1 ≤ r < H-1`. -/
theorem seam_connected_below_row0 (cum : Grid) (H W : Nat) (hd : cum.Dim H W) (hH : 2 ≤ H)
    (hW : 3 ≤ W) :
    ∃ seam, getSeamV cum = some seam ∧ seam.length = H ∧
      (∀ r, 1 ≤ r → r < H → 1 ≤ seam.getD r 0 ∧ seam.getD r 0 ≤ W - 1) ∧
      (∀ r, 1 ≤ r → r + 1 < H →
        seam.getD r 0 ≤ seam.getD (r + 1) 0 + 1 ∧ seam.getD (r + 1) 0 ≤ seam.getD r 0 + 1) := by
  obtain ⟨seam, hs, hlen, hb, _, _, hstep⟩ := getSeamV_full cum H W hd (by omega) hW
  refine ⟨seam, hs, hlen, hb, ?_⟩
  intro r hr1 hr2
  have hb' := hb (r + 1) (by omega) hr2
  obtain ⟨_, _, h3, h4⟩ := stepCol_bounds cum W (seam.getD (r + 1) 0) r hW hb'.1 hb'.2
  rw [hstep r hr1 hr2]
  exact ⟨h3, h4⟩

/-- C19, instance: the theorem applied to the cumulative map `brightCornerCum`. -/
theorem seam_connected_below_row0_witness :
    brightCornerCum.Dim 3 5 ∧ 2 ≤ 3 ∧ 3 ≤ 5 ∧
    ∃ seam, getSeamV brightCornerCum = some seam ∧ seam.length = 3 ∧
      (∀ r, 1 ≤ r → r < 3 → 1 ≤ seam.getD r 0 ∧ seam.getD r 0 ≤ 5 - 1) ∧
      (∀ r, 1 ≤ r → r + 1 < 3 →
        seam.getD r 0 ≤ seam.getD (r + 1) 0 + 1 ∧ seam.getD (r + 1) 0 ≤ seam.getD r 0 + 1) :=
  ⟨⟨rfl, by decide⟩, by decide, by decide,
    seam_connected_below_row0 brightCornerCum 3 5 ⟨rfl, by decide⟩ (by decide) (by decide)⟩

/-- C20. For an image of width at least 3, with `e = energy(img)`: the variant
`getCumMinEnergySeeded`, which copies row 0 of `e` into row 0 of the cumulative map before
the row loop, returns exactly what `getCumMinEnergy` returns, hence `getSeamV` selects the
same seam after either; and unless the image has no rows both the map and the seam are
produced. -/
theorem seeding_row0_changes_nothing (img : Image) (hW : 3 ≤ img.w) :
    ∃ e, energy img = some e ∧ getCumMinEnergySeeded e = getCumMinEnergy e ∧
      (getCumMinEnergySeeded e).bind getSeamV = (getCumMinEnergy e).bind getSeamV ∧
      (img.h = 0 ∨ ∃ cum seam, getCumMinEnergy e = some cum ∧ getSeamV cum = some seam) := by
  obtain ⟨e, he, hd, hz⟩ := energy_border img
  have heq := getCumMinEnergySeeded_eq e img.h img.w hd (fun c _ => hz 0 c (by simp))
  refine ⟨e, he, heq, by rw [heq], ?_⟩
  by_cases h0 : img.h = 0
  · exact Or.inl h0
  · right
    obtain ⟨cum, hc, hcd⟩ := getCumMinEnergy_total e img.h img.w hd (by omega) hW
    obtain ⟨seam, hs, _⟩ := getSeamV_spec cum img.h img.w hcd (by omega) hW
    exact ⟨cum, seam, hc, hs⟩

/-- C20, instance: the theorem applied to the 3 x 3 sample image. -/
theorem seeding_row0_changes_nothing_witness :
    3 ≤ sample3x3.w ∧
    ∃ e, energy sample3x3 = some e ∧ getCumMinEnergySeeded e = getCumMinEnergy e ∧
      (getCumMinEnergySeeded e).bind getSeamV = (getCumMinEnergy e).bind getSeamV ∧
      (sample3x3.h = 0 ∨
        ∃ cum seam, getCumMinEnergy e = some cum ∧ getSeamV cum = some seam) :=
  ⟨by decide, seeding_row0_changes_nothing sample3x3 (by decide)⟩

end SeamCarving
